import Mathlib

/-! # The gold LTO plugin (`lto-plugin/lto-plugin.c`)

A shallow embedding of the plugin's symbol-table decoder, claimed-file registry,
resolution writer, backend executor and teardown, followed by theorems about them.

Conventions of the embedding:

* a `char *` walking a buffer is the list of bytes from the pointer to the end of the
  buffer; reading through a pointer that has reached the end is `Fault.out_of_bounds`;
* a C array held through a pointer that may be `NULL` is an `Option (List _)`;
* the file-scope globals are the fields of `plugin_state`, together with the part of the
  file system the plugin touches and the record of the calls it makes to the linker;
* the linker's callbacks (the transfer vector of `onload`) are the fields of `Host`;
* memory allocation does not fail.
-/

namespace LtoPlugin

/-! ## Results of running plugin code -/

/-- One byte of a buffer. -/
abbrev Byte := Fin 256

/-- Ways in which the C code leaves defined behaviour. -/
inductive Fault where
  | out_of_bounds
  | null_pointer
  | use_after_free
  deriving DecidableEq, Repr

/-- What running a piece of the plugin leads to: a value, the end of the process after a
failed `check` at `LDPL_FATAL`, the end of the process in a failed `assert`, undefined
behaviour, or a loop that never ends. -/
inductive Outcome (α : Type) where
  | ok (a : α)
  | fatal (text : String)
  | assert_failed (expr : String)
  | undefined (f : Fault)
  | diverges
  deriving DecidableEq, Repr

/-- Sequencing: everything but `ok` ends the run. -/
def Outcome.bind {α β : Type} (x : Outcome α) (f : α → Outcome β) : Outcome β :=
  match x with
  | .ok a => f a
  | .fatal t => .fatal t
  | .assert_failed t => .assert_failed t
  | .undefined u => .undefined u
  | .diverges => .diverges

instance : Monad Outcome where
  pure := Outcome.ok
  bind := Outcome.bind

/-- The C `assert`. -/
def c_assert (cond : Bool) (expr : String) : Outcome Unit :=
  if cond then .ok () else .assert_failed expr

/-! ## The linker interface (`plugin-api.h`) -/

inductive ld_plugin_level where
  | LDPL_INFO
  | LDPL_WARNING
  | LDPL_ERROR
  | LDPL_FATAL
  deriving DecidableEq, Repr

inductive ld_plugin_status where
  | LDPS_OK
  | LDPS_NO_SYMS
  | LDPS_BAD_HANDLE
  | LDPS_ERR
  deriving DecidableEq, Repr

inductive ld_plugin_symbol_kind where
  | LDPK_DEF
  | LDPK_WEAKDEF
  | LDPK_UNDEF
  | LDPK_WEAKUNDEF
  | LDPK_COMMON
  deriving DecidableEq, Repr

inductive ld_plugin_symbol_visibility where
  | LDPV_DEFAULT
  | LDPV_PROTECTED
  | LDPV_INTERNAL
  | LDPV_HIDDEN
  deriving DecidableEq, Repr

/-- The resolution enumeration, as the number the code uses to index
`lto_resolution_str`. -/
abbrev ld_plugin_symbol_resolution := Nat

/-- The first enumerator of the resolution enumeration. -/
def LDPR_UNKNOWN : ld_plugin_symbol_resolution := 0

/-- A symbol as handed to the linker. The field `def` of the C structure is `def_`. -/
structure ld_plugin_symbol where
  name : List Byte
  version : Option (List Byte)
  def_ : ld_plugin_symbol_kind
  visibility : ld_plugin_symbol_visibility
  size : Nat
  comdat_key : Option (List Byte)
  resolution : ld_plugin_symbol_resolution
  deriving DecidableEq, Repr

/-- The contents of an array entry that has been allocated and not yet written. -/
instance : Inhabited ld_plugin_symbol where
  default :=
    { name := [], version := none, def_ := .LDPK_DEF, visibility := .LDPV_DEFAULT,
      size := 0, comdat_key := none, resolution := LDPR_UNKNOWN }

/-- The callbacks the linker hands over in the transfer vector.

* `message`: the diagnostic sink when the linker supplies one; its result says whether
  the call ends the process (`true`) or comes back to the plugin (`false`);
* `add_symbols handle nsyms syms`: the status the linker answers;
* `get_symbols handle nsyms syms j`: the resolution the linker stores in `syms[j]`;
* `add_input_file`, `add_input_library`: present when the linker supplies them. -/
structure Host where
  message : Option (ld_plugin_level → String → Bool)
  add_symbols : Nat → Nat → Option (List ld_plugin_symbol) → ld_plugin_status
  get_symbols : Nat → Nat → List ld_plugin_symbol → Nat → ld_plugin_symbol_resolution
  add_input_file : Option (String → ld_plugin_status)
  add_input_library : Option (String → ld_plugin_status)

/-- The function `check`: nothing happens when the gate holds; otherwise the text goes
to the linker's sink when there is one, and to `stderr` followed by `abort` at
`LDPL_FATAL` when there is none. -/
def check (tv : Host) (gate : Bool) (level : ld_plugin_level) (text : String) :
    Outcome Unit :=
  if gate then .ok ()
  else
    match tv.message with
    | some message => if message level text then .fatal text else .ok ()
    | none => if level = .LDPL_FATAL then .fatal text else .ok ()

/-! ## Reading the symbol table -/

/-- Byte order of the machine the plugin runs on. -/
inductive Endian where
  | little
  | big
  deriving DecidableEq, Repr

/-- Value of a sequence of bytes, least significant first. -/
def from_le : List Byte → Nat
  | [] => 0
  | b :: bs => b.val + 256 * from_le bs

/-- The `k` low bytes of `n`, least significant first. -/
def to_le : Nat → Nat → List Byte
  | 0, _ => []
  | k + 1, n => ⟨n % 256, Nat.mod_lt _ (by decide)⟩ :: to_le k (n / 256)

/-- The read `*(uintN_t *) p` of `k` bytes in the machine's byte order. -/
def load (e : Endian) (k : Nat) (p : List Byte) : Outcome Nat :=
  if p.length < k then .undefined .out_of_bounds
  else
    match e with
    | .little => .ok (from_le (p.take k))
    | .big => .ok (from_le (p.take k).reverse)

/-- The read `*p`. -/
def deref (p : List Byte) : Outcome Byte :=
  match p with
  | [] => .undefined .out_of_bounds
  | b :: _ => .ok b

/-- The function `strlen`: the number of bytes before the first NUL. -/
def strlen : List Byte → Outcome Nat
  | [] => .undefined .out_of_bounds
  | b :: p => if b = 0 then .ok 0 else (strlen p).bind fun n => .ok (n + 1)

/-- The function `strdup`: a copy of the bytes before the first NUL. -/
def strdup (p : List Byte) : Outcome (List Byte) :=
  (strlen p).bind fun n => .ok (p.take n)

/-- The loop `while (*p) p++;` followed by `p++`. -/
def skip_string (p : List Byte) : Outcome (List Byte) :=
  (strlen p).bind fun n => .ok (p.drop (n + 1))

/-- Reading `xs[i]` of a C array. -/
def index {α : Type} (xs : List α) (i : Nat) : Outcome α :=
  match xs[i]? with
  | some a => .ok a
  | none => .undefined .out_of_bounds

def translate_kind : List ld_plugin_symbol_kind :=
  [.LDPK_DEF, .LDPK_WEAKDEF, .LDPK_UNDEF, .LDPK_WEAKUNDEF, .LDPK_COMMON]

def translate_visibility : List ld_plugin_symbol_visibility :=
  [.LDPV_DEFAULT, .LDPV_PROTECTED, .LDPV_INTERNAL, .LDPV_HIDDEN]

/-- The function `parse_table_entry`: parses the entry at `p` and returns the address of
the next entry, the entry and its slot. -/
def parse_table_entry (tv : Host) (e : Endian) (p : List Byte) :
    Outcome (List Byte × ld_plugin_symbol × Nat) := do
  let name ← strdup p
  let p ← skip_string p
  let comdat_key := p
  let p ← skip_string p
  let len ← strlen comdat_key
  let comdat_key ←
    if len = 0 then (pure none : Outcome (Option (List Byte)))
    else (strdup comdat_key).bind fun k => pure (some k)
  let t ← deref p
  check tv (decide (t.val ≤ 4)) .LDPL_FATAL "invalid symbol kind found"
  let def_ ← index translate_kind t.val
  let p := p.drop 1
  let t ← deref p
  check tv (decide (t.val ≤ 3)) .LDPL_FATAL "invalid symbol visibility found"
  let visibility ← index translate_visibility t.val
  let p := p.drop 1
  let size ← load e 8 p
  let p := p.drop 8
  let slot ← load e 4 p
  let p := p.drop 4
  pure (p, { name := name, version := none, def_ := def_, visibility := visibility,
             size := size, comdat_key := comdat_key, resolution := LDPR_UNKNOWN }, slot)

/-- The part of the symbol table the plugin keeps for a file. -/
structure plugin_symtab where
  nsyms : Nat
  slots : Option (List Nat)
  syms : Option (List ld_plugin_symbol)
  deriving DecidableEq, Repr

/-- The function `realloc` on an array of `n` entries: the old entries are kept, new
ones hold `junk`. -/
def realloc {α : Type} (a : Option (List α)) (n : Nat) (junk : α) : Option (List α) :=
  some (List.take n (a.getD []) ++ List.replicate (n - (a.getD []).length) junk)

/-- The store `a[i] = x`. -/
def store {α : Type} (a : Option (List α)) (i : Nat) (x : α) : Outcome (Option (List α)) :=
  match a with
  | none => .undefined .out_of_bounds
  | some xs => if i < xs.length then .ok (some (xs.set i x)) else .undefined .out_of_bounds

/-- The loop of `translate`; `fuel` bounds the number of iterations. -/
def translate_loop (tv : Host) (e : Endian) :
    Nat → List Byte → Nat → Option (List ld_plugin_symbol) → Option (List Nat) →
      Outcome plugin_symtab
  | _, [], n, syms, slots => .ok { nsyms := n, slots := slots, syms := syms }
  | 0, _ :: _, _, _, _ => .diverges
  | fuel + 1, b :: data, n, syms, slots => do
    let n := n + 1
    let syms := realloc syms n default
    check tv syms.isSome .LDPL_FATAL "could not allocate memory"
    let slots := realloc slots n 0
    check tv slots.isSome .LDPL_FATAL "could not allocate memory"
    let (p, entry, slot) ← parse_table_entry tv e (b :: data)
    let syms ← store syms (n - 1) entry
    let slots ← store slots (n - 1) slot
    translate_loop tv e fuel p n syms slots

/-- The function `translate`: the symbol table of the section contents `symtab`. Every
entry takes at least one byte, so the length of the buffer is enough fuel. -/
def translate (tv : Host) (e : Endian) (symtab : List Byte) : Outcome plugin_symtab :=
  translate_loop tv e symtab.length symtab 0 none none

/-! ## The session: globals, files on disk, calls made -/

/-- All that the plugin remembers about a file. -/
structure plugin_file_info where
  name : String
  handle : Nat
  symtab : plugin_symtab
  temp : Bool
  deriving DecidableEq, Repr

/-- A heap array reached through a global pointer that `free` does not reset: `NULL`,
allocated, or freed and still pointed to. -/
inductive heap_array (α : Type) where
  | null
  | live (xs : List α)
  | freed
  deriving DecidableEq, Repr

/-- What a file on disk holds: raw bytes (an extracted archive member), text, or what
`writeargv` wrote for a list of arguments. -/
inductive FileData where
  | bytes (b : List Byte)
  | text (t : String)
  | arguments (argv : List String)
  deriving DecidableEq, Repr

/-- A call from the plugin to the linker or to the process layer, as a recording test
double would log it. -/
inductive Call where
  | add_symbols (handle nsyms : Nat) (syms : Option (List ld_plugin_symbol))
  | get_symbols (handle nsyms : Nat)
  | add_input_file (name : String)
  | add_input_library (name : String)
  | writeargv (file : String) (argv : List String)
  | pex_run (executable : Option String) (argv : List (Option String))
  | stderr (text : String)
  deriving DecidableEq, Repr

/-- The file-scope variables of the plugin (a pointer and its count are one list), the
counter `objnum` of `claim_file_handler`, the files and directories on disk, the paths
that cannot be opened for writing, and the calls made so far. -/
structure plugin_state where
  temp_obj_dir_name : Option String
  claimed_files : List plugin_file_info
  output_files : heap_array String
  lto_wrapper_argv : Option (List String)
  pass_through_items : Option (List String)
  debug : Bool
  nop : Bool
  resolution_file : Option String
  objnum : Nat
  files : List (String × FileData)
  dirs : List String
  unwritable : List String
  calls : List Call
  deriving DecidableEq, Repr

/-- Number of entries of an array that may be `NULL`. -/
def count {α : Type} (a : Option (List α)) : Nat := (a.getD []).length

/-- The conversion `%d` applied to a 32-bit value: decimal, with a minus sign from
`2^31` on. -/
def fmt_d (x : Nat) : String :=
  if x % 2 ^ 32 < 2 ^ 31 then toString (x % 2 ^ 32)
  else "-" ++ toString (2 ^ 32 - x % 2 ^ 32)

/-- The conversion `%s`; glibc prints `(null)` for a null pointer. -/
def fmt_s (a : Option String) : String := a.getD "(null)"

/-- Whether a file is on disk at `path`. -/
def file_exists (s : plugin_state) (path : String) : Bool :=
  s.files.any fun f => f.1 = path

/-- The call `unlink`: the file is removed and the result is `0`, or the result is `-1`
when there is no such file. -/
def unlink (s : plugin_state) (path : String) : plugin_state × Int :=
  if file_exists s path then
    ({ s with files := s.files.filter fun f => f.1 ≠ path }, 0)
  else (s, -1)

/-- Whether `path` lies inside the directory `dir`. -/
def inside (dir path : String) : Bool :=
  (dir.data ++ ['/']).isPrefixOf path.data

/-- The call `rmdir`: an existing empty directory is removed and the result is `0`;
otherwise, and for a null pointer, the result is `-1`. -/
def rmdir (s : plugin_state) (dir : Option String) : plugin_state × Int :=
  match dir with
  | none => (s, -1)
  | some d =>
    if d ∈ s.dirs ∧ (s.files.all fun f => !inside d f.1) ∧ (s.dirs.all fun x => !inside d x) then
      ({ s with dirs := s.dirs.filter fun x => x ≠ d }, 0)
    else (s, -1)

/-- The call `fopen (path, "w")` followed by the writes and `fclose`: the file holds
`data` afterwards. The result tells whether the file could be opened. -/
def write_file (s : plugin_state) (path : String) (data : FileData) : plugin_state × Bool :=
  if path ∈ s.unwritable then (s, false)
  else ({ s with files := (s.files.filter fun f => f.1 ≠ path) ++ [(path, data)] }, true)

/-- A call to the linker is added to the record. -/
def record (s : plugin_state) (c : Call) : plugin_state :=
  { s with calls := s.calls ++ [c] }

/-- The call `add_input_file (name)` through the pointer of the transfer vector. -/
def call_add_input_file (tv : Host) (s : plugin_state) (name : String) :
    Outcome plugin_state :=
  match tv.add_input_file with
  | none => .undefined .null_pointer
  | some _ => .ok (record s (.add_input_file name))

/-- The call `add_input_library (name)` through the pointer of the transfer vector. -/
def call_add_input_library (tv : Host) (s : plugin_state) (name : String) :
    Outcome plugin_state :=
  match tv.add_input_library with
  | none => .undefined .null_pointer
  | some _ => .ok (record s (.add_input_library name))

/-! ## Releasing memory -/

/-- The body of the outer loop of `free_1` for one file: the names and keys of its
`nsyms` symbols are released through `syms`, then `syms` itself, which becomes `NULL`. -/
def free_1_file (info : plugin_file_info) : Outcome plugin_file_info :=
  if info.symtab.nsyms = 0 then .ok { info with symtab := { info.symtab with syms := none } }
  else
    match info.symtab.syms with
    | none => .undefined .null_pointer
    | some xs =>
      if info.symtab.nsyms ≤ xs.length then
        .ok { info with symtab := { info.symtab with syms := none } }
      else .undefined .out_of_bounds

/-- The outer loop of `free_1`. -/
def free_1_files : List plugin_file_info → Outcome (List plugin_file_info)
  | [] => .ok []
  | info :: rest => do
    let info1 ← free_1_file info
    let rest1 ← free_1_files rest
    pure (info1 :: rest1)

/-- The function `free_1`: frees what is no longer needed after writing the symbol
resolution. -/
def free_1 (s : plugin_state) : Outcome plugin_state := do
  let files ← free_1_files s.claimed_files
  pure { s with claimed_files := files }

/-- The function `free_2`: frees all remaining memory. The registry, the name of the
temporary directory and the resolution file are reset; `output_files` is freed and
left as it is. -/
def free_2 (s : plugin_state) : Outcome plugin_state :=
  match s.output_files with
  | .freed => .undefined .use_after_free
  | .null =>
    .ok { s with claimed_files := [], temp_obj_dir_name := none, resolution_file := none }
  | .live _ =>
    .ok { s with claimed_files := [], output_files := .freed, temp_obj_dir_name := none,
                 resolution_file := none }

/-! ## Writing the resolution file -/

/-- The linker's answer to `get_symbols (handle, nsyms, syms)`: the resolution of the
first `nsyms` entries is filled in, in place. `j` is the index of the head of the list. -/
def fill_resolutions (answer : Nat → ld_plugin_symbol_resolution) (nsyms : Nat) :
    Nat → List ld_plugin_symbol → List ld_plugin_symbol
  | _, [] => []
  | j, x :: xs =>
    (if j < nsyms then { x with resolution := answer j } else x) ::
      fill_resolutions answer nsyms (j + 1) xs

/-- The inner loop of `write_resolution`: the lines of the symbols `j`, `j + 1`, ... of a
file, `k` of them. -/
def write_symbols (lto_resolution_str : Nat → String) (slots : Option (List Nat))
    (syms : List ld_plugin_symbol) : Nat → Nat → Outcome String
  | 0, _ => .ok ""
  | k + 1, j => do
    let slot ←
      match slots with
      | none => (.undefined .null_pointer : Outcome Nat)
      | some a => index a j
    let sym ← index syms j
    let rest ← write_symbols lto_resolution_str slots syms k (j + 1)
    pure (fmt_d slot ++ " " ++ lto_resolution_str sym.resolution ++ "\n" ++ rest)

/-- The outer loop of `write_resolution`: the files with their resolutions filled in,
the calls made to the linker and the text written. -/
def write_files (tv : Host) (lto_resolution_str : Nat → String) :
    List plugin_file_info → Outcome (List plugin_file_info × List Call × String)
  | [] => .ok ([], [], "")
  | info :: rest => do
    c_assert info.symtab.syms.isSome "syms"
    let syms := info.symtab.syms.getD []
    let syms1 :=
      fill_resolutions (tv.get_symbols info.handle info.symtab.nsyms syms) info.symtab.nsyms 0 syms
    let header := info.name ++ " " ++ fmt_d info.symtab.nsyms ++ "\n"
    let lines ← write_symbols lto_resolution_str info.symtab.slots syms1 info.symtab.nsyms 0
    let r ← write_files tv lto_resolution_str rest
    pure ({ info with symtab := { info.symtab with syms := some syms1 } } :: r.1,
          Call.get_symbols info.handle info.symtab.nsyms :: r.2.1,
          header ++ lines ++ r.2.2)

/-- The function `write_resolution`. The table `lto_resolution_str` of
`gcc/lto/common.h` is a parameter. -/
def write_resolution (tv : Host) (lto_resolution_str : Nat → String) (s : plugin_state) :
    Outcome plugin_state :=
  match s.resolution_file with
  | none => .ok s
  | some path => do
    let f := decide (path ∉ s.unwritable)
    check tv f .LDPL_FATAL "could not open file"
    if f = false then .undefined .null_pointer
    else
      let r ← write_files tv lto_resolution_str s.claimed_files
      let text := fmt_d s.claimed_files.length ++ "\n" ++ r.2.2
      let s1 := (write_file s path (.text text)).1
      pure { s1 with claimed_files := r.1, calls := s1.calls ++ r.2.1 }

/-! ## Running the lto-wrapper -/

/-- Up to `k` characters of the stream, stopping after a newline: what `fgets` stores
and what is left of the stream. -/
def read_line : Nat → List Char → List Char × List Char
  | 0, f => ([], f)
  | _ + 1, [] => ([], [])
  | k + 1, c :: f =>
    if c = Char.ofNat 10 then ([c], f)
    else ((c :: (read_line k f).1), (read_line k f).2)

/-- The function `fgets` with a buffer of `size` characters: `NULL` at the end of the
stream, otherwise at most `size - 1` characters. -/
def fgets (size : Nat) (f : List Char) : Option (List Char × List Char) :=
  match f with
  | [] => none
  | _ :: _ => some (read_line (size - 1) f)

/-- The function `strlen` on what `fgets` stored: the characters before the first NUL. -/
def line_strlen (line : List Char) : Nat :=
  (line.takeWhile fun c => c ≠ Char.ofNat 0).length

/-- The loop of `add_output_files`; `fuel` bounds the number of iterations. -/
def add_output_files_loop (tv : Host) : Nat → List Char → plugin_state → Outcome plugin_state
  | 0, _, _ => .diverges
  | fuel + 1, f, s =>
    match fgets 1000 f with
    | none => .ok s
    | some (line, rest) => do
      let len := line_strlen line
      let last ← if len = 0 then (.undefined .out_of_bounds : Outcome Char)
                 else index line (len - 1)
      check tv (decide (last = Char.ofNat 10)) .LDPL_FATAL "file name too long"
      let name := String.mk (line.take (len - 1))
      let files ←
        match s.output_files with
        | .null => (pure (.live [name]) : Outcome (heap_array String))
        | .live xs => pure (.live (xs ++ [name]))
        | .freed => .undefined .use_after_free
      let s1 ← call_add_input_file tv { s with output_files := files } name
      add_output_files_loop tv fuel rest s1

/-- The function `add_output_files`: passes the files named on the wrapper's standard
output to the linker. Every iteration but the last takes at least one character off the
stream. -/
def add_output_files (tv : Host) (f : List Char) (s : plugin_state) : Outcome plugin_state :=
  add_output_files_loop tv (f.length + 1) f s

/-- What libiberty reports about the run of the wrapper: whether `pex_init` gives an
object, the message and error number of `pex_run`, the stream of `pex_read_output`, the
result of `pex_get_status`, and `WIFEXITED` and `WEXITSTATUS` of the status. -/
structure pex_obj where
  init : Bool
  run_errmsg : Option String
  run_err : Int
  output : Option (List Char)
  get_status : Int
  exited : Bool
  exit_status : Nat
  deriving DecidableEq, Repr

/-- The entries of a `NULL`-terminated vector. -/
def c_argv : List (Option String) → Outcome (List String)
  | [] => .undefined .out_of_bounds
  | none :: _ => .ok []
  | some a :: rest => (c_argv rest).bind fun r => .ok (a :: r)

/-- What the loop over `new_argv` prints on `stderr` in debug mode. -/
def debug_line : List (Option String) → String
  | some a :: rest => a ++ " " ++ debug_line rest
  | _ => "\n"

/-- The function `exec_lto_wrapper`: `argv[0]` is the binary, the rest of `argv` is
written to the arguments file. -/
def exec_lto_wrapper (tv : Host) (pex : pex_obj) (argv : List (Option String))
    (s : plugin_state) : Outcome plugin_state := do
  let at_args := "@" ++ fmt_s s.temp_obj_dir_name ++ "/arguments"
  check tv true .LDPL_FATAL "asprintf failed"
  let args_name := String.mk (at_args.data.drop 1)
  let args := decide (args_name ∉ s.unwritable)
  check tv args .LDPL_FATAL "could not open arguments file"
  if args = false then .undefined .null_pointer
  else
    let written ← c_argv (argv.drop 1)
    let s := record (write_file s args_name (.arguments written)).1
      (.writeargv args_name written)
    check tv true .LDPL_FATAL "could not write arguments"
    check tv true .LDPL_FATAL "could not close arguments file"
    let argv0 ← index argv 0
    let new_argv := [argv0, some at_args, none]
    let s := if s.debug then record s (.stderr (debug_line new_argv)) else s
    check tv pex.init .LDPL_FATAL "could not pex_init lto-wrapper"
    if pex.init = false then .undefined .null_pointer
    else
      let s := record s (.pex_run argv0 [argv0, some at_args])
      check tv pex.run_errmsg.isNone .LDPL_FATAL "could not run lto-wrapper"
      check tv (decide (pex.run_err = 0)) .LDPL_FATAL "could not run lto-wrapper"
      check tv pex.output.isSome .LDPL_FATAL "could not read lto-wrapper output"
      match pex.output with
      | none => .undefined .null_pointer
      | some wrapper_output =>
        let s ← add_output_files tv wrapper_output s
        check tv (decide (pex.get_status = 1)) .LDPL_FATAL
          "could not get lto-wrapper exit status"
        check tv (pex.exited && decide (pex.exit_status = 0)) .LDPL_FATAL "lto-wrapper failed"
        let r := unlink s args_name
        check tv (decide (r.2 = 0)) .LDPL_FATAL "could not unlink arguments file"
        pure r.1

/-- The loop of `use_original_files` over the registry. -/
def use_original_files_loop (tv : Host) : List plugin_file_info → plugin_state →
    Outcome plugin_state
  | [], s => .ok s
  | info :: rest, s => do
    let s1 ← call_add_input_file tv s info.name
    use_original_files_loop tv rest s1

/-- The function `use_original_files`: passes the original files back to the linker. -/
def use_original_files (tv : Host) (s : plugin_state) : Outcome plugin_state :=
  use_original_files_loop tv s.claimed_files s

/-- The stores `*lto_arg_ptr++ = x` for the values `xs`, one after the other, into the
array `a`; the result is the array and the position of the pointer. -/
def put_args : List (Option String) → Nat → List (Option String) →
    Outcome (List (Option String) × Nat)
  | a, ptr, [] => .ok (a, ptr)
  | a, ptr, x :: xs =>
    if ptr < a.length then put_args (a.set ptr x) (ptr + 1) xs
    else .undefined .out_of_bounds

/-- The loop that hands the pass-through items to the linker: a library for an item
that starts with `-l`, a file otherwise. -/
def pass_through_loop (tv : Host) : List String → plugin_state → Outcome plugin_state
  | [], s => .ok s
  | item :: rest, s => do
    let s1 ←
      if item.data.take 2 = ['-', 'l'] then
        call_add_input_library tv s (String.mk (item.data.drop 2))
      else call_add_input_file tv s item
    pass_through_loop tv rest s1

/-- The vector `all_symbols_read_handler` fills: `lto_argv` is the zeroed array of
`num_lto_args` entries, and the two loops and the final store go through `lto_arg_ptr`. -/
def fill_lto_argv (num_lto_args : Nat) (s : plugin_state) : Outcome (List (Option String)) := do
  let lto_argv : List (Option String) := List.replicate num_lto_args none
  let a ← put_args lto_argv 0 ((s.lto_wrapper_argv.getD []).map some)
  let a ← put_args a.1 a.2 (s.claimed_files.map fun info => some info.name)
  let a ← put_args a.1 a.2 [none]
  pure a.1

/-- The last part of `all_symbols_read_handler`: the pass-through items go to the linker
and their array is released. -/
def forward_pass_through (tv : Host) (s : plugin_state) : Outcome plugin_state :=
  match s.pass_through_items with
  | none => .ok s
  | some items => do
    let s1 ← pass_through_loop tv items s
    pure { s1 with pass_through_items := none }

/-- The function `all_symbols_read_handler`: called by the linker once all symbols have
been read. -/
def all_symbols_read_handler (tv : Host) (lto_resolution_str : Nat → String) (pex : pex_obj)
    (s : plugin_state) : Outcome (plugin_state × ld_plugin_status) :=
  let num_lto_args := s.claimed_files.length + count s.lto_wrapper_argv + 1
  if s.claimed_files.length = 0 then .ok (s, .LDPS_OK)
  else if s.nop then do
    let s1 ← use_original_files tv s
    pure (s1, .LDPS_OK)
  else do
    c_assert s.lto_wrapper_argv.isSome "lto_wrapper_argv"
    let s ← write_resolution tv lto_resolution_str s
    let s ← free_1 s
    let lto_argv ← fill_lto_argv num_lto_args s
    let s ← exec_lto_wrapper tv pex lto_argv s
    let s ← forward_pass_through tv s
    pure (s, .LDPS_OK)

/-! ## Teardown -/

/-- The first loop of `cleanup_handler`: the temporary files of the registry are
unlinked. -/
def unlink_temporaries (tv : Host) : List plugin_file_info → plugin_state →
    Outcome plugin_state
  | [], s => .ok s
  | info :: rest, s =>
    if info.temp then do
      let r := unlink s info.name
      check tv (decide (r.2 = 0)) .LDPL_FATAL "could not unlink temporary file"
      unlink_temporaries tv rest r.1
    else unlink_temporaries tv rest s

/-- The result of `stat (path, &buf) == 0`. -/
def stat_ok (s : plugin_state) (path : String) : Bool :=
  file_exists s path || decide (path ∈ s.dirs)

/-- The function `cleanup_handler`: removes temporary files at the end of the link. -/
def cleanup_handler (tv : Host) (s : plugin_state) :
    Outcome (plugin_state × ld_plugin_status) := do
  let s ← unlink_temporaries tv s.claimed_files s
  if s.debug then pure (s, .LDPS_OK)
  else
    let arguments := fmt_s s.temp_obj_dir_name ++ "/arguments"
    check tv true .LDPL_FATAL "asprintf failed"
    let s ←
      if stat_ok s arguments then do
        let r := unlink s arguments
        check tv (decide (r.2 = 0)) .LDPL_FATAL "could not unlink arguments file"
        pure r.1
      else (pure s : Outcome plugin_state)
    let r := rmdir s s.temp_obj_dir_name
    check tv (decide (r.2 = 0)) .LDPL_FATAL "could not remove temporary directory"
    let s ← free_2 r.1
    pure (s, .LDPS_OK)

/-! ## Claiming a file -/

/-- The input file the linker offers: the fields of the C structure, `fd` being the
bytes of the open file, and what libelf finds in the object to be examined: nothing
when `elf_begin` fails, otherwise the contents of the section `.gnu.lto_.symtab` when
there is one. -/
structure ld_plugin_input_file where
  name : String
  fd : List Byte
  offset : Nat
  filesize : Nat
  handle : Nat
  elf : Option (Option (List Byte))
  deriving DecidableEq, Repr

/-- The loop that copies an archive member: `size` bytes are still to be copied, `input`
is what `read` has not yet delivered, `acc` what has been written; `fd_ok` tells whether
the temporary file could be opened. `fuel` bounds the number of iterations. -/
def copy_member (tv : Host) (fd_ok : Bool) :
    Nat → Nat → List Byte → List Byte → Outcome (List Byte)
  | _, 0, _, acc => .ok acc
  | 0, _ + 1, _, _ => .diverges
  | fuel + 1, size + 1, input, acc => do
    let s := min 1000 (size + 1)
    let r := (input.take s).length
    check tv fd_ok .LDPL_FATAL "could not write to temporary file"
    let acc1 := if fd_ok then acc ++ input.take s else acc
    if r = 0 then .diverges
    else copy_member tv fd_ok fuel (size + 1 - r) (input.drop s) acc1

/-- The bytes of the file at `path` when it holds raw bytes. -/
def file_bytes (s : plugin_state) (path : String) : List Byte :=
  match s.files.find? fun f => f.1 = path with
  | some (_, .bytes b) => b
  | _ => []

/-- The first part of `claim_file_handler`: an archive member (`offset` not zero) is
copied to a fresh file of the temporary directory. The result is the new state, the
name `lto_file.name` and whether `lto_file_fd` is an open descriptor. -/
def open_object (tv : Host) (file : ld_plugin_input_file) (s : plugin_state) :
    Outcome (plugin_state × String × Bool) :=
  if file.offset ≠ 0 then do
    let objname := fmt_s s.temp_obj_dir_name ++ "/obj" ++ fmt_d s.objnum ++ ".o"
    check tv true .LDPL_FATAL "asprintf failed"
    let s := { s with objnum := s.objnum + 1 }
    let fd := decide (objname ∉ s.unwritable)
    check tv fd .LDPL_FATAL "could not open/create temporary file"
    check tv true .LDPL_FATAL "could not seek"
    let copied ← copy_member tv fd file.filesize file.filesize (file.fd.drop file.offset) []
    let data := FileData.bytes (copied ++ (file_bytes s objname).drop copied.length)
    pure (if fd then (write_file s objname data).1 else s, objname, fd)
  else pure (s, file.name, true)

/-- The part of `claim_file_handler` at the label `err`: the temporary copy is
unlinked, and the file is not claimed. -/
def claim_error (tv : Host) (file : ld_plugin_input_file) (lto_name : String)
    (s : plugin_state) : Outcome (plugin_state × Bool × ld_plugin_status) :=
  if file.offset ≠ 0 then do
    let r := unlink s lto_name
    check tv (decide (r.2 = 0)) .LDPL_FATAL "could not unlink file"
    pure (r.1, false, .LDPS_OK)
  else pure (s, false, .LDPS_OK)

/-- The function `claim_file_handler`: the callback the linker uses to ask whether the
plugin claims `file`. The result carries what is written to `*claimed`. -/
def claim_file_handler (tv : Host) (e : Endian) (file : ld_plugin_input_file)
    (s : plugin_state) : Outcome (plugin_state × Bool × ld_plugin_status) := do
  let opened ← open_object tv file s
  let s := opened.1
  let lto_name := opened.2.1
  let elf := if opened.2.2 then file.elf else none
  match elf with
  | none => claim_error tv file lto_name s
  | some none => claim_error tv file lto_name s
  | some (some symtab) => do
    let table ← translate tv e symtab
    let status := tv.add_symbols file.handle table.nsyms table.syms
    let s := record s (.add_symbols file.handle table.nsyms table.syms)
    check tv (decide (status = .LDPS_OK)) .LDPL_FATAL "could not add symbols"
    let lto_file : plugin_file_info :=
      { name := lto_name, handle := file.handle, symtab := table,
        temp := decide (file.offset ≠ 0) }
    pure ({ s with claimed_files := s.claimed_files ++ [lto_file] }, true, .LDPS_OK)

/-! ## Options -/

/-- The function `process_option`: parses one plugin option. -/
def process_option (option : String) (s : plugin_state) : plugin_state :=
  if option = "-debug" then { s with debug := true }
  else if option = "-nop" then { s with nop := true }
  else if "-resolution=".data.isPrefixOf option.data then
    { s with resolution_file := some (String.mk (option.data.drop "-resolution=".length)) }
  else if "-pass-through=".data.isPrefixOf option.data then
    let item := String.mk (option.data.drop "-pass-through=".length)
    { s with pass_through_items := some (s.pass_through_items.getD [] ++ [item]) }
  else { s with lto_wrapper_argv := some (s.lto_wrapper_argv.getD [] ++ [option]) }

/-- The state in which `onload` leaves the plugin when it is given the options `opts`
and `mkdtemp` makes the directory `dir`: nothing claimed, nothing written. -/
def loaded (opts : List String) (dir : String) : plugin_state :=
  let s0 : plugin_state :=
    { temp_obj_dir_name := none, claimed_files := [], output_files := .null,
      lto_wrapper_argv := none, pass_through_items := none, debug := false, nop := false,
      resolution_file := none, objnum := 0, files := [], dirs := [], unwritable := [],
      calls := [] }
  let s1 := opts.foldl (fun s o => process_option o s) s0
  { s1 with temp_obj_dir_name := some dir, dirs := [dir] }

/-! ## The record layout of the specification -/

/-- A symbol record of the specification's data model, with its slot. -/
structure SymbolRecord where
  name : List Byte
  comdatKey : Option (List Byte)
  kind : ld_plugin_symbol_kind
  visibility : ld_plugin_symbol_visibility
  size : Nat
  slot : Nat
  deriving DecidableEq, Repr

/-- Kind code of the record layout: 0 to 4 for Defined, WeakDefined, Undefined,
WeakUndefined, Common. -/
def kind_code : ld_plugin_symbol_kind → Byte
  | .LDPK_DEF => 0
  | .LDPK_WEAKDEF => 1
  | .LDPK_UNDEF => 2
  | .LDPK_WEAKUNDEF => 3
  | .LDPK_COMMON => 4

/-- Visibility code of the record layout: 0 to 3 for Default, Protected, Internal,
Hidden. -/
def visibility_code : ld_plugin_symbol_visibility → Byte
  | .LDPV_DEFAULT => 0
  | .LDPV_PROTECTED => 1
  | .LDPV_INTERNAL => 2
  | .LDPV_HIDDEN => 3

/-- The `k` bytes of `n` in the machine's byte order. -/
def to_bytes (e : Endian) (k n : Nat) : List Byte :=
  match e with
  | .little => to_le k n
  | .big => (to_le k n).reverse

/-- One record in the layout of the specification: name and NUL, comdat key and NUL
(the empty string when there is no key), kind byte, visibility byte, eight bytes of
size, four bytes of slot. -/
def encode_record (e : Endian) (r : SymbolRecord) : List Byte :=
  r.name ++ [0] ++ (r.comdatKey.getD []) ++ [0] ++
    [kind_code r.kind, visibility_code r.visibility] ++ to_bytes e 8 r.size ++
    to_bytes e 4 r.slot

/-- A sequence of records, one after the other. -/
def encode_table (e : Endian) : List SymbolRecord → List Byte
  | [] => []
  | r :: rs => encode_record e r ++ encode_table e rs

/-- The symbol the decoder is expected to produce for a record: resolution unknown. -/
def SymbolRecord.to_symbol (r : SymbolRecord) : ld_plugin_symbol :=
  { name := r.name, version := none, def_ := r.kind, visibility := r.visibility,
    size := r.size, comdat_key := r.comdatKey, resolution := LDPR_UNKNOWN }

/-- A record the layout can carry: strings without NUL, a comdat key that is not empty
when present, a size of 64 bits and a slot of 32 bits. -/
def SymbolRecord.WellFormed (r : SymbolRecord) : Prop :=
  (∀ b ∈ r.name, b ≠ 0) ∧
  (∀ k, r.comdatKey = some k → k ≠ [] ∧ ∀ b ∈ k, b ≠ 0) ∧
  r.size < 2 ^ 64 ∧ r.slot < 2 ^ 32

/-- The symbols of a table as a sequence (`NULL` holds none). -/
def plugin_symtab.symbols (t : plugin_symtab) : List ld_plugin_symbol :=
  t.syms.getD []

/-- The slots of a table as a sequence (`NULL` holds none). -/
def plugin_symtab.slot_ids (t : plugin_symtab) : List Nat :=
  t.slots.getD []

/-- An array after the entries `xs` have been appended one at a time: untouched (and so
still `NULL` if it was) when there is nothing to append. -/
def grow {α : Type} (a : Option (List α)) (xs : List α) : Option (List α) :=
  match xs with
  | [] => a
  | _ :: _ => some (a.getD [] ++ xs)

/-- The table that holds the records `rs`. -/
def table_of (rs : List SymbolRecord) : plugin_symtab :=
  { nsyms := rs.length
    slots := grow none (rs.map SymbolRecord.slot)
    syms := grow none (rs.map SymbolRecord.to_symbol) }

/-- The linker's sink, when there is one, does not come back from a message at
`LDPL_FATAL`. -/
def Host.fatal_ends_process (tv : Host) : Prop :=
  ∀ m, tv.message = some m → ∀ text, m .LDPL_FATAL text = true

/-- The two sequences of a table have the length `nsyms`. -/
def plugin_symtab.parallel (t : plugin_symtab) : Prop :=
  t.symbols.length = t.nsyms ∧ t.slot_ids.length = t.nsyms

/-- Every file of the registry has parallel sequences. -/
def registry_parallel (s : plugin_state) : Prop :=
  ∀ info ∈ s.claimed_files, info.symtab.parallel

/-- The slots of a file paired with the resolutions the linker answers, `j` being the
index of the first slot. -/
def answers (answer : Nat → ld_plugin_symbol_resolution) : Nat → List Nat → List (Nat × Nat)
  | _, [] => []
  | j, slot :: rest => (slot, answer j) :: answers answer (j + 1) rest

/-- A claimed file as the resolution file is to show it: its path and, in symbol order,
each slot with the resolution the linker answers for it. -/
def resolved (tv : Host) (info : plugin_file_info) : String × List (Nat × Nat) :=
  (info.name,
    answers (tv.get_symbols info.handle info.symtab.nsyms info.symtab.symbols) 0
      info.symtab.slot_ids)

/-- The strings of a list, one after the other. -/
def concat : List String → String
  | [] => ""
  | a :: l => a ++ concat l

/-- The line of a symbol in the resolution file of the specification: the decimal slot
and the name of the resolution. -/
def symbol_line (resolution_name : Nat → String) (sym : Nat × Nat) : String :=
  toString sym.1 ++ " " ++ resolution_name sym.2 ++ "\n"

/-- The lines of a file in the resolution file of the specification: its path and its
number of symbols, then one line per symbol. -/
def file_section (resolution_name : Nat → String) (f : String × List (Nat × Nat)) : String :=
  f.1 ++ " " ++ toString f.2.length ++ "\n" ++ concat (f.2.map (symbol_line resolution_name))

/-- The resolution file as the specification words it: a line with the number of files;
for each file a line with its path and its number of symbols, then one line per symbol
with the decimal slot and the name of the resolution. -/
def reference_resolution_text (resolution_name : Nat → String)
    (files : List (String × List (Nat × Nat))) : String :=
  toString files.length ++ "\n" ++ concat (files.map (file_section resolution_name))

/-- A file of the registry that `write_resolution` can print: its symbol array is not
`NULL`, its sequences have the length `nsyms`, and `nsyms` and every slot are below
`2^31`. -/
def plugin_file_info.printable (info : plugin_file_info) : Prop :=
  info.symtab.syms.isSome = true ∧ info.symtab.symbols.length = info.symtab.nsyms ∧
  info.symtab.slot_ids.length = info.symtab.nsyms ∧ info.symtab.nsyms < 2 ^ 31 ∧
  ∀ slot ∈ info.symtab.slot_ids, slot < 2 ^ 31

instance (info : plugin_file_info) : Decidable info.printable := by
  unfold plugin_file_info.printable
  infer_instance

/-- The standard output of a wrapper that prints the given lines, each ended by a
newline. -/
def output_text : List (List Char) → List Char
  | [] => []
  | l :: ls => l ++ Char.ofNat 10 :: output_text ls

/-- The array `output_files` after the names `xs` have been appended one at a time. -/
def heap_array.append {α : Type} (a : heap_array α) (xs : List α) : heap_array α :=
  match xs with
  | [] => a
  | _ :: _ =>
    match a with
    | .null => .live xs
    | .live ys => .live (ys ++ xs)
    | .freed => .freed

/-- A line the loop of `add_output_files` can take: no newline and no NUL inside, at
most 998 characters. -/
def short_line (l : List Char) : Prop :=
  Char.ofNat 10 ∉ l ∧ Char.ofNat 0 ∉ l ∧ l.length ≤ 998

/-- The calls that make up the run of the wrapper: the writing of the arguments file
and the start of the process. -/
def is_exec : Call → Bool
  | .writeargv _ _ => true
  | .pex_run _ _ => true
  | _ => false

/-- The argument vector of the specification: the forwarded options followed by the
paths of the claimed files, in registry order. -/
def backend_args (fwd : List String) (s : plugin_state) : List String :=
  fwd ++ s.claimed_files.map fun info => info.name

/-- A linker without a diagnostic sink. -/
def bare_host : Host :=
  { message := none
    add_symbols := fun _ _ _ => .LDPS_OK
    get_symbols := fun _ _ _ _ => LDPR_UNKNOWN
    add_input_file := some fun _ => .LDPS_OK
    add_input_library := some fun _ => .LDPS_OK }

/-- A linker whose sink comes back from every message. -/
def returning_host : Host :=
  { bare_host with message := some fun _ _ => false }

/-- The record `foo` of the end-to-end example of the specification. -/
def rec_foo : SymbolRecord :=
  { name := [102, 111, 111], comdatKey := none, kind := .LDPK_DEF,
    visibility := .LDPV_DEFAULT, size := 16, slot := 0 }

/-- The record `bar` of the end-to-end example of the specification. -/
def rec_bar : SymbolRecord :=
  { name := [98, 97, 114], comdatKey := none, kind := .LDPK_UNDEF,
    visibility := .LDPV_DEFAULT, size := 0, slot := 1 }

/-- The record `baz` of the end-to-end example of the specification, here with a comdat
key `g`. -/
def rec_baz : SymbolRecord :=
  { name := [98, 97, 122], comdatKey := some [103], kind := .LDPK_WEAKDEF,
    visibility := .LDPV_DEFAULT, size := 8, slot := 0 }

/-- A record named `e` whose comdat key is present and empty. -/
def rec_empty_key : SymbolRecord :=
  { name := [101], comdatKey := some [], kind := .LDPK_DEF, visibility := .LDPV_DEFAULT,
    size := 1, slot := 7 }

/-- An entry named `a` without comdat key whose kind byte is 5. -/
def bad_kind_entry : List Byte :=
  [97, 0, 0, 5, 0, 0, 0, 0, 0, 0, 0, 0, 0, 0, 0, 0, 0]

/-- A file whose symbol-table section is empty. -/
def empty_object : ld_plugin_input_file :=
  { name := "a.o", fd := [], offset := 0, filesize := 0, handle := 1, elf := some (some []) }

/-- The linker of the end-to-end example: it answers Prevailing (1) and Resolved (2) for
the two symbols of the file with handle 1, and Prevailing for the symbol of the file
with handle 2. -/
def example_host : Host :=
  { bare_host with
    get_symbols := fun handle _ _ j => if handle = 1 ∧ j = 1 then 2 else 1 }

/-- Modelled from the spec: the names of the resolutions of the end-to-end example; the
table `lto_resolution_str` of `gcc/lto/common.h` is not among the sources. -/
def example_resolution_str : Nat → String
  | 1 => "Prevailing"
  | 2 => "Resolved"
  | _ => "Unknown"

/-- The file `a.o` of the end-to-end example: symbols `foo` and `bar`. -/
def object_a : ld_plugin_input_file :=
  { name := "a.o", fd := [], offset := 0, filesize := 0, handle := 1,
    elf := some (some (encode_table .little [rec_foo, rec_bar])) }

/-- The file `b.o` of the end-to-end example: symbol `baz`. -/
def object_b : ld_plugin_input_file :=
  { name := "b.o", fd := [], offset := 0, filesize := 0, handle := 2,
    elf := some (some (encode_table .little [rec_baz])) }

/-- The state a run leaves, or `s` when the run does not end well. -/
def Outcome.state_or {α : Type} (x : Outcome (plugin_state × α)) (s : plugin_state) :
    plugin_state :=
  match x with
  | .ok r => r.1
  | _ => s

/-- A session loaded with the path of the wrapper and a resolution file. -/
def session_0 : plugin_state :=
  loaded ["/usr/bin/lto-wrapper", "-resolution=res"] "tmp_objects"

/-- The session after `a.o` has been claimed. -/
def session_a : plugin_state :=
  (claim_file_handler example_host .little object_a session_0).state_or session_0

/-- The session after `a.o` and `b.o` have been claimed. -/
def session_ab : plugin_state :=
  (claim_file_handler example_host .little object_b session_a).state_or session_a

/-- The session after the resolution file of the end-to-end example has been written. -/
def session_written : plugin_state :=
  Outcome.state_or
    ((write_resolution example_host example_resolution_str session_ab).bind
      fun s => Outcome.ok (s, ()))
    session_ab

/-- The session of the end-to-end example in bypass mode. -/
def session_nop : plugin_state :=
  { session_ab with nop := true }

/-- A run of the wrapper that ends well and names one object file. -/
def good_pex : pex_obj :=
  { init := true, run_errmsg := none, run_err := 0, output := some "out.ltrans0.o\n".data,
    get_status := 1, exited := true, exit_status := 0 }

/-- A record whose slot is `2^31`. -/
def rec_high : SymbolRecord :=
  { name := [104], comdatKey := none, kind := .LDPK_DEF, visibility := .LDPV_DEFAULT,
    size := 4, slot := 2147483648 }

/-- A file whose only symbol has the slot `2^31`. -/
def object_high : ld_plugin_input_file :=
  { name := "h.o", fd := [], offset := 0, filesize := 0, handle := 3,
    elf := some (some (encode_table .little [rec_high])) }

/-- The session after the file with the empty symbol table has been claimed. -/
def session_empty : plugin_state :=
  (claim_file_handler bare_host .little empty_object session_0).state_or session_0

/-- The session after a first teardown. -/
def session_torn : plugin_state :=
  (cleanup_handler bare_host session_0).state_or session_0

/-- A member of four bytes at offset 8 of the archive `lib.a`, with the symbol `foo`. -/
def member_foo : ld_plugin_input_file :=
  { name := "lib.a", fd := [33, 60, 97, 114, 99, 104, 62, 10, 127, 69, 76, 70], offset := 8,
    filesize := 4, handle := 5, elf := some (some (encode_table .little [rec_foo])) }

/-- A session in debug mode. -/
def session_debug : plugin_state :=
  loaded ["/usr/bin/lto-wrapper", "-debug"] "tmp_objects"

/-- The session in debug mode after the archive member has been claimed. -/
def session_debug_member : plugin_state :=
  (claim_file_handler bare_host .little member_foo session_debug).state_or session_debug

/-- The session in debug mode after the archive member has been claimed and a first
teardown has run. -/
def session_debug_torn : plugin_state :=
  (cleanup_handler bare_host session_debug_member).state_or session_debug_member

/-- The session of the end-to-end example after the wrapper has run. -/
def session_linked : plugin_state :=
  (all_symbols_read_handler example_host example_resolution_str good_pex session_ab).state_or
    session_ab

/-- A session loaded without any option to forward, after `a.o` has been claimed. -/
def session_no_wrapper : plugin_state :=
  (claim_file_handler example_host .little object_a (loaded ["-resolution=res"] "tmp_objects")).state_or
    session_0

/-- An option the plugin does not recognize: neither `-debug` nor `-nop`, and not
started by `-resolution=` or `-pass-through=`. -/
def unrecognized (o : String) : Bool :=
  !(decide (o = "-debug") || decide (o = "-nop") || "-resolution=".data.isPrefixOf o.data ||
    "-pass-through=".data.isPrefixOf o.data)

/-- The name `objname` that `claim_file_handler` gives to the copy of an archive member:
`obj`, the counter and `.o`, in the temporary directory. -/
def objname (s : plugin_state) : String :=
  fmt_s s.temp_obj_dir_name ++ "/obj" ++ fmt_d s.objnum ++ ".o"

/-- A member of four bytes at offset 8 of the archive `lib.a`: an object that libelf
opens and in which it finds no section `.gnu.lto_.symtab`. -/
def member_plain : ld_plugin_input_file :=
  { name := "lib.a", fd := [33, 60, 97, 114, 99, 104, 62, 10, 127, 69, 76, 70], offset := 8,
    filesize := 4, handle := 6, elf := some none }

/-- A file on its own that libelf opens and in which it finds no section
`.gnu.lto_.symtab`. -/
def object_plain : ld_plugin_input_file :=
  { name := "c.o", fd := [127, 69, 76, 70], offset := 0, filesize := 4, handle := 7,
    elf := some none }

/-- The session of the end-to-end example when no resolution file was asked for. -/
def session_no_resolution : plugin_state :=
  { session_ab with resolution_file := none }

/-! ## Lemmas on sequencing and on reading bytes -/

@[simp] theorem Outcome.pure_def {α : Type} (a : α) : (pure a : Outcome α) = .ok a := rfl

@[simp] theorem Outcome.bind_def {α β : Type} (x : Outcome α) (f : α → Outcome β) :
    (x >>= f) = x.bind f := rfl

@[simp] theorem Outcome.ok_bind {α β : Type} (a : α) (f : α → Outcome β) :
    (Outcome.ok a).bind f = f a := rfl

@[simp] theorem Outcome.fatal_bind {α β : Type} (t : String) (f : α → Outcome β) :
    (Outcome.fatal t : Outcome α).bind f = .fatal t := rfl

@[simp] theorem Outcome.assert_failed_bind {α β : Type} (t : String) (f : α → Outcome β) :
    (Outcome.assert_failed t : Outcome α).bind f = .assert_failed t := rfl

@[simp] theorem Outcome.undefined_bind {α β : Type} (u : Fault) (f : α → Outcome β) :
    (Outcome.undefined u : Outcome α).bind f = .undefined u := rfl

@[simp] theorem Outcome.diverges_bind {α β : Type} (f : α → Outcome β) :
    (Outcome.diverges : Outcome α).bind f = .diverges := rfl

/-- A sequence ends well only when both of its parts do. -/
theorem Outcome.bind_eq_ok {α β : Type} {x : Outcome α} {f : α → Outcome β} {b : β} :
    x.bind f = .ok b ↔ ∃ a, x = .ok a ∧ f a = .ok b := by
  cases x <;> simp [Outcome.bind]

@[simp] theorem check_true (tv : Host) (level : ld_plugin_level) (text : String) :
    check tv true level text = .ok () := rfl

/-- A failed fatal check ends the process when the linker has no sink. -/
theorem check_false_bare (tv : Host) (text : String) (h : tv.message = none) :
    check tv false .LDPL_FATAL text = .fatal text := by
  simp [check, h]

theorem strlen_append (s rest : List Byte) (hs : ∀ b ∈ s, b ≠ 0) :
    strlen (s ++ 0 :: rest) = .ok s.length := by
  induction s with
  | nil => simp [strlen]
  | cons b s ih =>
    have hb : b ≠ 0 := hs b (by simp)
    have ih2 := ih (fun c hc => hs c (by simp [hc]))
    simp [strlen, hb, ih2]

theorem strlen_no_nul (s : List Byte) (hs : ∀ b ∈ s, b ≠ 0) :
    strlen s = .undefined .out_of_bounds := by
  induction s with
  | nil => simp [strlen]
  | cons b s ih =>
    have hb : b ≠ 0 := hs b (by simp)
    have ih2 := ih (fun c hc => hs c (by simp [hc]))
    simp [strlen, hb, ih2]

/-- When `strlen` answers, the buffer is a NUL-free string, a NUL and a rest. -/
theorem strlen_eq_ok {p : List Byte} {n : Nat} (h : strlen p = .ok n) :
    (∀ b ∈ p.take n, b ≠ 0) ∧ p = p.take n ++ 0 :: p.drop (n + 1) ∧ (p.take n).length = n := by
  induction p generalizing n with
  | nil => simp [strlen] at h
  | cons b p ih =>
    by_cases hb : b = 0
    · simp [strlen, hb] at h
      subst h
      simp [hb]
    · simp only [strlen, hb, if_false] at h
      obtain ⟨m, hm, hn⟩ := Outcome.bind_eq_ok.mp h
      simp at hn
      subst hn
      obtain ⟨h1, h2, h3⟩ := ih hm
      refine ⟨?_, ?_, ?_⟩
      · intro c hc
        simp at hc
        rcases hc with rfl | hc
        · exact hb
        · exact h1 c hc
      · simpa using h2
      · simpa using h3

theorem strlen_ok_or_oob (p : List Byte) :
    (∃ n, strlen p = .ok n) ∨ strlen p = .undefined .out_of_bounds := by
  induction p with
  | nil => simp [strlen]
  | cons b p ih =>
    by_cases hb : b = 0
    · simp [strlen, hb]
    · rcases ih with ⟨n, hn⟩ | h
      · simp [strlen, hb, hn]
      · simp [strlen, hb, h]

theorem to_le_length (k n : Nat) : (to_le k n).length = k := by
  induction k generalizing n with
  | zero => rfl
  | succ k ih => simp [to_le, ih]

theorem from_le_to_le (k n : Nat) : from_le (to_le k n) = n % 256 ^ k := by
  induction k generalizing n with
  | zero => simp [to_le, from_le, Nat.mod_one]
  | succ k ih =>
    simp only [to_le, from_le, ih]
    rw [pow_succ, Nat.mul_comm (256 ^ k) 256, Nat.mod_mul]

theorem from_le_lt (bs : List Byte) : from_le bs < 256 ^ bs.length := by
  induction bs with
  | nil => simp [from_le]
  | cons b bs ih =>
    simp only [from_le, List.length_cons, pow_succ]
    have := b.isLt
    omega

theorem to_le_from_le (bs : List Byte) : to_le bs.length (from_le bs) = bs := by
  induction bs with
  | nil => rfl
  | cons b bs ih =>
    simp only [List.length_cons, to_le, from_le]
    have hb := b.isLt
    have h1 : (b.val + 256 * from_le bs) % 256 = b.val := by omega
    have h2 : (b.val + 256 * from_le bs) / 256 = from_le bs := by omega
    rw [h2, ih]
    congr 1
    exact Fin.ext h1

theorem to_bytes_length (e : Endian) (k n : Nat) : (to_bytes e k n).length = k := by
  cases e <;> simp [to_bytes, to_le_length]

theorem load_to_bytes (e : Endian) (k n : Nat) (rest : List Byte) (h : n < 256 ^ k) :
    load e k (to_bytes e k n ++ rest) = .ok n := by
  have hl := to_bytes_length e k n
  have ht : List.take k (to_bytes e k n ++ rest) = to_bytes e k n := by
    rw [List.take_append_of_le_length (by omega), List.take_of_length_le (by omega)]
  have hlen : ¬ (to_bytes e k n ++ rest).length < k := by
    rw [List.length_append]
    omega
  unfold load
  rw [if_neg hlen, ht]
  cases e <;> simp [to_bytes, from_le_to_le, Nat.mod_eq_of_lt h]

/-- What was read by `load` is the bytes of the value read. -/
theorem load_eq_ok {e : Endian} {k : Nat} {p : List Byte} {n : Nat} (h : load e k p = .ok n) :
    p = to_bytes e k n ++ p.drop k ∧ n < 256 ^ k := by
  unfold load at h
  split at h
  · simp at h
  · rename_i hlen
    have hk : (p.take k).length = k := by simp; omega
    cases e
    · simp at h
      subst h
      refine ⟨?_, ?_⟩
      · have := to_le_from_le (p.take k)
        rw [hk] at this
        simp [to_bytes, this]
      · have := from_le_lt (p.take k)
        rwa [hk] at this
    · simp at h
      subst h
      refine ⟨?_, ?_⟩
      · have := to_le_from_le (p.take k).reverse
        rw [List.length_reverse, hk] at this
        simp [to_bytes, this]
      · have := from_le_lt (p.take k).reverse
        rwa [List.length_reverse, hk] at this

theorem strdup_append (s rest : List Byte) (hs : ∀ b ∈ s, b ≠ 0) :
    strdup (s ++ 0 :: rest) = .ok s := by
  simp [strdup, strlen_append s rest hs]

theorem skip_string_append (s rest : List Byte) (hs : ∀ b ∈ s, b ≠ 0) :
    skip_string (s ++ 0 :: rest) = .ok rest := by
  simp [skip_string, strlen_append s rest hs]

theorem kind_code_le (k : ld_plugin_symbol_kind) : (kind_code k).val ≤ 4 := by
  cases k <;> decide

theorem visibility_code_le (v : ld_plugin_symbol_visibility) : (visibility_code v).val ≤ 3 := by
  cases v <;> decide

theorem index_kind_code (k : ld_plugin_symbol_kind) :
    index translate_kind (kind_code k).val = .ok k := by
  cases k <;> rfl

theorem index_visibility_code (v : ld_plugin_symbol_visibility) :
    index translate_visibility (visibility_code v).val = .ok v := by
  cases v <;> rfl

/-- The bytes of a record, grouped the way the parser walks them. -/
theorem encode_record_append (e : Endian) (r : SymbolRecord) (rest : List Byte) :
    encode_record e r ++ rest =
      r.name ++ 0 :: (r.comdatKey.getD [] ++ 0 :: kind_code r.kind ::
        visibility_code r.visibility :: (to_bytes e 8 r.size ++ (to_bytes e 4 r.slot ++ rest))) := by
  simp [encode_record]

/-- The parser on a buffer that starts with a NUL-free name, a NUL, a NUL-free key and a
NUL: what is left is the work on the fourteen bytes of fixed layout. -/
theorem parse_table_entry_strings (tv : Host) (e : Endian) (name key tail : List Byte)
    (hn : ∀ b ∈ name, b ≠ 0) (hk : ∀ b ∈ key, b ≠ 0) :
    parse_table_entry tv e (name ++ 0 :: (key ++ 0 :: tail)) =
      (deref tail).bind fun t =>
      (check tv (decide (t.val ≤ 4)) .LDPL_FATAL "invalid symbol kind found").bind fun _ =>
      (index translate_kind t.val).bind fun def_ =>
      (deref (tail.drop 1)).bind fun t =>
      (check tv (decide (t.val ≤ 3)) .LDPL_FATAL "invalid symbol visibility found").bind fun _ =>
      (index translate_visibility t.val).bind fun visibility =>
      (load e 8 ((tail.drop 1).drop 1)).bind fun size =>
      (load e 4 (((tail.drop 1).drop 1).drop 8)).bind fun slot =>
      .ok ((((tail.drop 1).drop 1).drop 8).drop 4,
        { name := name, version := none, def_ := def_, visibility := visibility, size := size,
          comdat_key := if key = [] then none else some key, resolution := LDPR_UNKNOWN },
        slot) := by
  unfold parse_table_entry
  simp only [Outcome.bind_def, Outcome.pure_def, strdup_append name _ hn,
    skip_string_append name _ hn, skip_string_append key _ hk, strlen_append key _ hk,
    Outcome.ok_bind]
  by_cases hkey : key = []
  · subst hkey
    simp
  · have hlen : key.length ≠ 0 := by
      intro h
      exact hkey (List.length_eq_zero.mp h)
    simp only [hlen, if_false, strdup_append key _ hk, Outcome.ok_bind, hkey]

theorem parse_table_entry_encode (tv : Host) (e : Endian) (r : SymbolRecord)
    (rest : List Byte) (h : r.WellFormed) :
    parse_table_entry tv e (encode_record e r ++ rest) = .ok (rest, r.to_symbol, r.slot) := by
  obtain ⟨hn, hk, hsize, hslot⟩ := h
  have hk2 : ∀ b ∈ r.comdatKey.getD [], b ≠ 0 := by
    cases hc : r.comdatKey with
    | none => simp
    | some k => exact (hk k hc).2
  have hkey : (if r.comdatKey.getD [] = [] then none else some (r.comdatKey.getD [])) =
      r.comdatKey := by
    cases hc : r.comdatKey with
    | none => simp
    | some k => simp [(hk k hc).1]
  rw [encode_record_append, parse_table_entry_strings tv e _ _ _ hn hk2]
  have h8 : r.size < 256 ^ 8 := by norm_num at hsize ⊢; exact hsize
  have h4 : r.slot < 256 ^ 4 := by norm_num at hslot ⊢; exact hslot
  have hd8 : List.drop 8 (to_bytes e 8 r.size ++ (to_bytes e 4 r.slot ++ rest)) =
      to_bytes e 4 r.slot ++ rest := by
    rw [List.drop_append_of_le_length (by rw [to_bytes_length])]
    rw [List.drop_of_length_le (by rw [to_bytes_length])]
    rfl
  have hd4 : List.drop 4 (to_bytes e 4 r.slot ++ rest) = rest := by
    rw [List.drop_append_of_le_length (by rw [to_bytes_length])]
    rw [List.drop_of_length_le (by rw [to_bytes_length])]
    rfl
  simp only [deref, Outcome.ok_bind, kind_code_le, visibility_code_le, decide_True, check_true,
    index_kind_code, index_visibility_code, List.drop_succ_cons, List.drop_zero,
    load_to_bytes e 8 r.size _ h8, hd8, load_to_bytes e 4 r.slot _ h4, hd4, hkey]
  rfl

/-! ## Lemmas on the loop of `translate` -/

/-- Growing an array of `n` entries by one and writing the new last entry. -/
theorem store_realloc {α : Type} (a : Option (List α)) (n : Nat) (junk x : α)
    (h : (a.getD []).length = n) :
    store (realloc a (n + 1) junk) n x = .ok (some (a.getD [] ++ [x])) := by
  have h1 : List.take (n + 1) (a.getD []) = a.getD [] :=
    List.take_of_length_le (by omega)
  simp only [realloc, store, h1, h]
  simp [h, List.set_append_right]

/-- One iteration of the loop of `translate`. -/
theorem translate_loop_step (tv : Host) (e : Endian) (fuel : Nat) (data : List Byte) (n : Nat)
    (syms : Option (List ld_plugin_symbol)) (slots : Option (List Nat)) (h : data ≠ []) :
    translate_loop tv e (fuel + 1) data n syms slots =
      (parse_table_entry tv e data).bind fun x =>
        (store (realloc syms (n + 1) default) n x.2.1).bind fun syms1 =>
          (store (realloc slots (n + 1) 0) n x.2.2).bind fun slots1 =>
            translate_loop tv e fuel x.1 (n + 1) syms1 slots1 := by
  cases data with
  | nil => exact absurd rfl h
  | cons b data =>
    simp only [translate_loop, realloc, Option.isSome_some, check_true, Outcome.bind_def,
      Outcome.ok_bind, Nat.add_sub_cancel]

theorem encode_record_ne_nil (e : Endian) (r : SymbolRecord) (rest : List Byte) :
    encode_record e r ++ rest ≠ [] := by
  rw [encode_record_append]
  cases r.name <;> simp

theorem grow_getD {α : Type} (a : Option (List α)) (xs : List α) :
    (grow a xs).getD [] = a.getD [] ++ xs := by
  cases xs <;> simp [grow]

theorem grow_push {α : Type} (a : Option (List α)) (x : α) (xs : List α) :
    grow (some (a.getD [] ++ [x])) xs = grow a (x :: xs) := by
  cases xs <;> simp [grow]

theorem encode_record_length_pos (e : Endian) (r : SymbolRecord) :
    0 < (encode_record e r).length := by
  have := encode_record_ne_nil e r []
  rw [List.append_nil] at this
  exact List.length_pos.mpr this

/-- The loop of `translate` on the bytes of well-formed records followed by `rest`: every
record is appended, in order, and the loop goes on with `rest`. -/
theorem translate_loop_encode (tv : Host) (e : Endian) (rs : List SymbolRecord) :
    ∀ (fuel n : Nat) (syms : Option (List ld_plugin_symbol)) (slots : Option (List Nat))
      (rest : List Byte),
      (∀ r ∈ rs, r.WellFormed) → (syms.getD []).length = n → (slots.getD []).length = n →
      (encode_table e rs ++ rest).length ≤ fuel →
      translate_loop tv e fuel (encode_table e rs ++ rest) n syms slots =
        translate_loop tv e (fuel - rs.length) rest (n + rs.length)
          (grow syms (rs.map SymbolRecord.to_symbol)) (grow slots (rs.map SymbolRecord.slot)) := by
  induction rs with
  | nil =>
    intro fuel n syms slots rest _ _ _ _
    simp [encode_table, grow]
  | cons r rs ih =>
    intro fuel n syms slots rest hwf hsyms hslots hfuel
    have hr : r.WellFormed := hwf r (by simp)
    have hrs : ∀ q ∈ rs, q.WellFormed := fun q hq => hwf q (by simp [hq])
    simp only [encode_table, List.append_assoc] at hfuel ⊢
    have hne := encode_record_ne_nil e r (encode_table e rs ++ rest)
    have hpos := encode_record_length_pos e r
    rw [List.length_append] at hfuel
    cases fuel with
    | zero => omega
    | succ fuel =>
      rw [translate_loop_step tv e fuel _ n syms slots hne,
        parse_table_entry_encode tv e r _ hr]
      simp only [Outcome.ok_bind, store_realloc syms n default _ hsyms,
        store_realloc slots n 0 _ hslots]
      rw [ih fuel (n + 1) (some (syms.getD [] ++ [r.to_symbol]))
        (some (slots.getD [] ++ [r.slot])) rest hrs (by simp [hsyms]) (by simp [hslots])
        (by omega), grow_push, grow_push]
      simp only [List.map_cons, List.length_cons]
      congr 1 <;> omega

/-- The decoder on the bytes of well-formed records. -/
theorem translate_encode (tv : Host) (e : Endian) (rs : List SymbolRecord)
    (h : ∀ r ∈ rs, r.WellFormed) :
    translate tv e (encode_table e rs) = .ok (table_of rs) := by
  unfold translate
  have := translate_loop_encode tv e rs (encode_table e rs).length 0 none none [] h rfl rfl
    (by simp)
  rw [List.append_nil] at this
  rw [this]
  cases hf : (encode_table e rs).length - rs.length <;> simp [translate_loop, table_of]

theorem index_translate_kind {i : Nat} {k : ld_plugin_symbol_kind}
    (h : index translate_kind i = .ok k) : i = (kind_code k).val := by
  rcases i with _ | _ | _ | _ | _ | i <;>
    simp [index, translate_kind] at h <;> subst h <;> rfl

theorem index_translate_visibility {i : Nat} {v : ld_plugin_symbol_visibility}
    (h : index translate_visibility i = .ok v) : i = (visibility_code v).val := by
  rcases i with _ | _ | _ | _ | i <;>
    simp [index, translate_visibility] at h <;> subst h <;> rfl

/-- A buffer on which the parser answers starts with two NUL-terminated strings. -/
theorem parse_table_entry_shape {tv : Host} {e : Endian} {p : List Byte}
    {x : List Byte × ld_plugin_symbol × Nat} (h : parse_table_entry tv e p = .ok x) :
    ∃ name key tail, (∀ b ∈ name, b ≠ 0) ∧ (∀ b ∈ key, b ≠ 0) ∧
      p = name ++ 0 :: (key ++ 0 :: tail) := by
  rcases strlen_ok_or_oob p with ⟨n1, h1⟩ | h1
  · obtain ⟨hn, hp, _⟩ := strlen_eq_ok h1
    rcases strlen_ok_or_oob (p.drop (n1 + 1)) with ⟨n2, h2⟩ | h2
    · obtain ⟨hk, hq, _⟩ := strlen_eq_ok h2
      refine ⟨p.take n1, (p.drop (n1 + 1)).take n2, (p.drop (n1 + 1)).drop (n2 + 1), hn, hk, ?_⟩
      rw [← hq]
      exact hp
    · simp [parse_table_entry, strdup, skip_string, h1, h2] at h
  · simp [parse_table_entry, strdup, h1] at h

/-- Whatever the parser accepts is the encoding of a well-formed record, followed by the
bytes the parser leaves. -/
theorem parse_table_entry_eq_ok {tv : Host} {e : Endian} {p p1 : List Byte}
    {entry : ld_plugin_symbol} {slot : Nat}
    (h : parse_table_entry tv e p = .ok (p1, entry, slot)) :
    ∃ r : SymbolRecord, r.WellFormed ∧ p = encode_record e r ++ p1 ∧ entry = r.to_symbol ∧
      slot = r.slot := by
  obtain ⟨name, key, tail, hn, hk, hp⟩ := parse_table_entry_shape h
  subst hp
  rw [parse_table_entry_strings tv e name key tail hn hk] at h
  obtain ⟨t1, ht1, h⟩ := Outcome.bind_eq_ok.mp h
  obtain ⟨_, _, h⟩ := Outcome.bind_eq_ok.mp h
  obtain ⟨kind, hkind, h⟩ := Outcome.bind_eq_ok.mp h
  obtain ⟨t2, ht2, h⟩ := Outcome.bind_eq_ok.mp h
  obtain ⟨_, _, h⟩ := Outcome.bind_eq_ok.mp h
  obtain ⟨vis, hvis, h⟩ := Outcome.bind_eq_ok.mp h
  obtain ⟨size, hsize, h⟩ := Outcome.bind_eq_ok.mp h
  obtain ⟨slot1, hslot, h⟩ := Outcome.bind_eq_ok.mp h
  simp only [Outcome.ok.injEq, Prod.mk.injEq] at h
  obtain ⟨hp1, hentry, hs⟩ := h
  subst hs
  cases tail with
  | nil => simp [deref] at ht1
  | cons a tail =>
    cases tail with
    | nil => simp [deref] at ht2
    | cons b tail =>
      simp only [List.drop_succ_cons, List.drop_zero, deref, Outcome.ok.injEq]
        at ht1 ht2 hsize hslot hp1
      subst ht1 ht2
      have ha : a = kind_code kind := Fin.ext (index_translate_kind hkind)
      have hb : b = visibility_code vis := Fin.ext (index_translate_visibility hvis)
      obtain ⟨hsz, hszlt⟩ := load_eq_ok hsize
      obtain ⟨hsl, hsllt⟩ := load_eq_ok hslot
      refine ⟨{ name := name, comdatKey := if key = [] then none else some key, kind := kind,
                visibility := vis, size := size, slot := slot1 }, ⟨hn, ?_, ?_, ?_⟩, ?_, ?_, rfl⟩
      · intro k hkk
        by_cases hkey : key = []
        · simp [hkey] at hkk
        · simp only [hkey, if_false, Option.some.injEq] at hkk
          subst hkk
          exact ⟨hkey, hk⟩
      · norm_num at hszlt ⊢
        exact hszlt
      · norm_num at hsllt ⊢
        exact hsllt
      · rw [encode_record_append]
        have hget : (if key = [] then none else some key : Option (List Byte)).getD [] = key := by
          by_cases hkey : key = [] <;> simp [hkey]
        simp only [hget]
        rw [← hp1, ← hsl, ← hsz, ← ha, ← hb]
      · rw [← hentry]
        rfl

/-- Whatever the loop of `translate` accepts is the encoding of well-formed records, and
the table is the one that holds them after the entries already there. -/
theorem translate_loop_eq_ok (tv : Host) (e : Endian) :
    ∀ (fuel : Nat) (data : List Byte) (n : Nat) (syms : Option (List ld_plugin_symbol))
      (slots : Option (List Nat)) (out : plugin_symtab),
      translate_loop tv e fuel data n syms slots = .ok out →
      (syms.getD []).length = n → (slots.getD []).length = n →
      ∃ rs : List SymbolRecord, (∀ r ∈ rs, r.WellFormed) ∧ data = encode_table e rs ∧
        out = { nsyms := n + rs.length
                slots := grow slots (rs.map SymbolRecord.slot)
                syms := grow syms (rs.map SymbolRecord.to_symbol) } := by
  intro fuel
  induction fuel with
  | zero =>
    intro data n syms slots out h _ _
    cases data with
    | nil =>
      simp only [translate_loop, Outcome.ok.injEq] at h
      exact ⟨[], by simp, rfl, by simp [grow, ← h]⟩
    | cons b data => simp [translate_loop] at h
  | succ fuel ih =>
    intro data n syms slots out h hsyms hslots
    cases data with
    | nil =>
      simp only [translate_loop, Outcome.ok.injEq] at h
      exact ⟨[], by simp, rfl, by simp [grow, ← h]⟩
    | cons b data =>
      rw [translate_loop_step tv e fuel _ n syms slots (by simp)] at h
      obtain ⟨⟨p1, entry, slot⟩, hparse, h⟩ := Outcome.bind_eq_ok.mp h
      obtain ⟨r, hr, hdata, hentry, hslot⟩ := parse_table_entry_eq_ok hparse
      simp only [store_realloc syms n default _ hsyms, store_realloc slots n 0 _ hslots,
        Outcome.ok_bind] at h
      obtain ⟨rs, hrs, hp1, hout⟩ := ih p1 (n + 1) _ _ out h (by simp [hsyms]) (by simp [hslots])
      refine ⟨r :: rs, ?_, ?_, ?_⟩
      · intro q hq
        simp at hq
        rcases hq with rfl | hq
        · exact hr
        · exact hrs q hq
      · rw [hdata, hp1]
        rfl
      · rw [hout, hentry, hslot, grow_push, grow_push]
        simp only [List.map_cons, List.length_cons]
        congr 1
        omega

/-- The decoder returns a table exactly on the encodings of well-formed records. -/
theorem translate_eq_ok_iff (tv : Host) (e : Endian) (buf : List Byte) (out : plugin_symtab) :
    translate tv e buf = .ok out ↔
      ∃ rs : List SymbolRecord, (∀ r ∈ rs, r.WellFormed) ∧ buf = encode_table e rs ∧
        out = table_of rs := by
  constructor
  · intro h
    obtain ⟨rs, hrs, hbuf, hout⟩ := translate_loop_eq_ok tv e _ buf 0 none none out h rfl rfl
    refine ⟨rs, hrs, hbuf, ?_⟩
    rw [hout]
    simp [table_of]
  · rintro ⟨rs, hrs, rfl, rfl⟩
    exact translate_encode tv e rs hrs

/-! ## Lemmas on buffers that are not a sequence of records -/

theorem check_false_fatal (tv : Host) (h : tv.fatal_ends_process) (text : String) :
    check tv false .LDPL_FATAL text = .fatal text := by
  unfold check
  cases hm : tv.message with
  | none => simp
  | some m => simp [h m hm text]

theorem encode_table_length_ge (e : Endian) (rs : List SymbolRecord) :
    rs.length ≤ (encode_table e rs).length := by
  induction rs with
  | nil => simp
  | cons r rs ih =>
    have := encode_record_length_pos e r
    simp only [encode_table, List.length_cons, List.length_append]
    omega

/-- After complete records the decoder parses what follows them; when that does not
give an entry, the decoder ends the same way. -/
theorem translate_after_records (tv : Host) (e : Endian) (rs : List SymbolRecord)
    (rest : List Byte) (hwf : ∀ r ∈ rs, r.WellFormed) (hne : rest ≠ []) :
    ∃ K : List Byte × ld_plugin_symbol × Nat → Outcome plugin_symtab,
      translate tv e (encode_table e rs ++ rest) = (parse_table_entry tv e rest).bind K := by
  unfold translate
  rw [translate_loop_encode tv e rs _ 0 none none rest hwf rfl rfl (Nat.le_refl _)]
  have h1 := encode_table_length_ge e rs
  have h2 : 0 < rest.length := List.length_pos.mpr hne
  obtain ⟨f, hf⟩ : ∃ f, (encode_table e rs ++ rest).length - rs.length = f + 1 := by
    refine ⟨(encode_table e rs ++ rest).length - rs.length - 1, ?_⟩
    rw [List.length_append]
    omega
  rw [hf, translate_loop_step tv e f rest _ _ _ hne]
  exact ⟨_, rfl⟩

theorem parse_table_entry_no_nul (tv : Host) (e : Endian) (c : List Byte)
    (hc : ∀ b ∈ c, b ≠ 0) : parse_table_entry tv e c = .undefined .out_of_bounds := by
  simp [parse_table_entry, strdup, strlen_no_nul c hc]

theorem parse_table_entry_one_string (tv : Host) (e : Endian) (name c : List Byte)
    (hn : ∀ b ∈ name, b ≠ 0) (hc : ∀ b ∈ c, b ≠ 0) :
    parse_table_entry tv e (name ++ 0 :: c) = .undefined .out_of_bounds := by
  unfold parse_table_entry
  simp only [Outcome.bind_def, strdup_append name c hn, skip_string_append name c hn,
    Outcome.ok_bind]
  simp [skip_string, strlen_no_nul c hc]

theorem index_translate_kind_le {i : Nat} (h : i ≤ 4) :
    ∃ k, index translate_kind i = .ok k := by
  rcases i with _ | _ | _ | _ | _ | i <;> first | exact ⟨_, rfl⟩ | omega

theorem index_translate_visibility_le {i : Nat} (h : i ≤ 3) :
    ∃ v, index translate_visibility i = .ok v := by
  rcases i with _ | _ | _ | _ | i <;> first | exact ⟨_, rfl⟩ | omega

theorem load_ok_or_oob (e : Endian) (k : Nat) (p : List Byte) :
    (∃ n, load e k p = .ok n) ∨ load e k p = .undefined .out_of_bounds := by
  unfold load
  split
  · exact Or.inr rfl
  · cases e <;> exact Or.inl ⟨_, rfl⟩

theorem load_short (e : Endian) (k : Nat) (p : List Byte) (h : p.length < k) :
    load e k p = .undefined .out_of_bounds := by
  simp [load, h]

/-- The fixed part of an entry cut before its end: some read falls outside the buffer. -/
theorem parse_table_entry_cut_tail (tv : Host) (e : Endian) (name key d suf : List Byte)
    (kind : ld_plugin_symbol_kind) (vis : ld_plugin_symbol_visibility) (fixed : List Byte)
    (hn : ∀ b ∈ name, b ≠ 0) (hk : ∀ b ∈ key, b ≠ 0) (hfixed : fixed.length = 12)
    (hsuf : suf ≠ []) (hd : d ++ suf = kind_code kind :: visibility_code vis :: fixed) :
    parse_table_entry tv e (name ++ 0 :: (key ++ 0 :: d)) = .undefined .out_of_bounds := by
  rw [parse_table_entry_strings tv e name key d hn hk]
  have hsl : 0 < suf.length := List.length_pos.mpr hsuf
  have hlen := congrArg List.length hd
  simp only [List.length_append, List.length_cons, hfixed] at hlen
  cases d with
  | nil => simp [deref]
  | cons a d =>
    cases d with
    | nil =>
      simp only [List.cons_append, List.cons.injEq] at hd
      obtain ⟨ha, _⟩ := hd
      subst ha
      simp [deref, kind_code_le, index_kind_code]
    | cons b d =>
      simp only [List.cons_append, List.cons.injEq] at hd
      obtain ⟨ha, hb, _⟩ := hd
      subst ha hb
      simp only [List.length_cons] at hlen
      simp only [deref, Outcome.ok_bind, kind_code_le, visibility_code_le, decide_True,
        check_true, index_kind_code, index_visibility_code, List.drop_succ_cons, List.drop_zero]
      by_cases h8 : d.length < 8
      · simp [load_short e 8 d h8]
      · have h4 : (d.drop 8).length < 4 := by
          rw [List.length_drop]
          omega
        rcases load_ok_or_oob e 8 d with ⟨n, hn8⟩ | hn8
        · simp [hn8, load_short e 4 _ h4]
        · simp [hn8]

/-- An entry cut before its end: some read of the parser falls outside the buffer. -/
theorem parse_table_entry_cut (tv : Host) (e : Endian) (r : SymbolRecord) (cut suf : List Byte)
    (hr : r.WellFormed) (hsuf : suf ≠ []) (hcut : encode_record e r = cut ++ suf) :
    parse_table_entry tv e cut = .undefined .out_of_bounds := by
  obtain ⟨hn, hk, _, _⟩ := hr
  have hk2 : ∀ b ∈ r.comdatKey.getD [], b ≠ 0 := by
    cases hc : r.comdatKey with
    | none => simp
    | some k => exact (hk k hc).2
  have henc := encode_record_append e r []
  rw [List.append_nil, List.append_nil, hcut] at henc
  rcases List.append_eq_append_iff.mp henc with ⟨a, ha, _⟩ | ⟨c, hc, hrest⟩
  · -- the cut falls inside the name
    apply parse_table_entry_no_nul
    intro b hb
    exact hn b (by rw [ha]; simp [hb])
  · cases c with
    | nil =>
      rw [hc, List.append_nil]
      exact parse_table_entry_no_nul tv e _ hn
    | cons z c =>
      simp only [List.cons_append, List.cons.injEq] at hrest
      obtain ⟨hz, hrest⟩ := hrest
      subst hz
      rcases List.append_eq_append_iff.mp hrest.symm with ⟨a, ha, _⟩ | ⟨d, hd, hfix⟩
      · -- the cut falls inside the comdat key
        rw [hc]
        apply parse_table_entry_one_string tv e _ _ hn
        intro b hb
        exact hk2 b (by rw [ha]; simp [hb])
      · cases d with
        | nil =>
          rw [hc, hd, List.append_nil]
          exact parse_table_entry_one_string tv e _ _ hn hk2
        | cons z d =>
          simp only [List.cons_append, List.cons.injEq] at hfix
          obtain ⟨hz, hfix⟩ := hfix
          subst hz
          rw [hc, hd]
          exact parse_table_entry_cut_tail tv e _ _ d suf r.kind r.visibility
            (to_bytes e 8 r.size ++ to_bytes e 4 r.slot) hn hk2
            (by simp [to_bytes_length]) hsuf hfix.symm

/-! ## The symbol-table codec -/

theorem rec_foo_wf : rec_foo.WellFormed := by
  simp [SymbolRecord.WellFormed, rec_foo]

theorem rec_bar_wf : rec_bar.WellFormed := by
  simp [SymbolRecord.WellFormed, rec_bar]

theorem rec_baz_wf : rec_baz.WellFormed := by
  simp [SymbolRecord.WellFormed, rec_baz]

/-- C1, counterexample: a record whose comdat key is present and empty is encoded like
a record without key, and `translate` gives back a symbol without key. -/
theorem C1_counterexample :
    rec_empty_key.comdatKey = some [] ∧
    ∃ out, translate bare_host .little (encode_table .little [rec_empty_key]) = .ok out ∧
      out.symbols.map (fun sym => sym.comdat_key) = [none] ∧
      out.symbols ≠ [rec_empty_key].map (fun r =>
        { name := r.name, version := none, def_ := r.kind, visibility := r.visibility,
          size := r.size, comdat_key := r.comdatKey, resolution := LDPR_UNKNOWN }) := by
  refine ⟨rfl, table_of [{ rec_empty_key with comdatKey := none }], ?_, ?_, ?_⟩ <;> decide

/-- C1, amended: encoding well-formed records (NUL-free strings, a comdat key that is
not empty when present, 64-bit size, 32-bit slot) with the record layout and running
`translate` on the bytes gives as many symbols as records, in order, each with the name,
comdat key or absence of it, kind, visibility, size and slot of its record and with
resolution unknown. -/
theorem C1_translate_roundtrip (tv : Host) (e : Endian) (rs : List SymbolRecord)
    (h : ∀ r ∈ rs, r.WellFormed) :
    ∃ out, translate tv e (encode_table e rs) = .ok out ∧ out.nsyms = rs.length ∧
      out.symbols = rs.map (fun r =>
        { name := r.name, version := none, def_ := r.kind, visibility := r.visibility,
          size := r.size, comdat_key := r.comdatKey, resolution := LDPR_UNKNOWN }) ∧
      out.slot_ids = rs.map (fun r => r.slot) := by
  refine ⟨table_of rs, translate_encode tv e rs h, rfl, ?_, ?_⟩
  · simp only [plugin_symtab.symbols, table_of, grow_getD, Option.getD_none, List.nil_append]
    rfl
  · simp only [plugin_symtab.slot_ids, table_of, grow_getD, Option.getD_none, List.nil_append]

/-- C1, amended, at the three records of the end-to-end example, one of them with a
comdat key. -/
theorem C1_translate_roundtrip_witness :
    (∀ r ∈ [rec_foo, rec_bar, rec_baz], r.WellFormed) ∧
    ∃ out, translate bare_host .little (encode_table .little [rec_foo, rec_bar, rec_baz]) = .ok out ∧
      out.nsyms = [rec_foo, rec_bar, rec_baz].length ∧
      out.symbols = [rec_foo, rec_bar, rec_baz].map (fun r =>
        { name := r.name, version := none, def_ := r.kind, visibility := r.visibility,
          size := r.size, comdat_key := r.comdatKey, resolution := LDPR_UNKNOWN }) ∧
      out.slot_ids = [rec_foo, rec_bar, rec_baz].map (fun r => r.slot) :=
  have h : ∀ r ∈ [rec_foo, rec_bar, rec_baz], r.WellFormed := by
    intro r hr
    simp only [List.mem_cons, List.mem_singleton, List.not_mem_nil, or_false] at hr
    rcases hr with rfl | rfl | rfl
    · exact rec_foo_wf
    · exact rec_bar_wf
    · exact rec_baz_wf
  ⟨h, C1_translate_roundtrip bare_host .little [rec_foo, rec_bar, rec_baz] h⟩

/-- C4, counterexample: with a sink that comes back from its messages, an entry whose
kind byte is 5 does not end the decoding in a fatal error: `check` returns and the
decoder reads `translate_kind[5]`, outside the array. -/
theorem C4_counterexample :
    translate returning_host .little bad_kind_entry = .undefined .out_of_bounds ∧
    ∀ text, translate returning_host .little bad_kind_entry ≠ .fatal text := by
  have h : translate returning_host .little bad_kind_entry = .undefined .out_of_bounds := by
    decide
  exact ⟨h, fun text => by rw [h]; exact fun hc => Outcome.noConfusion hc⟩

/-- C4, amended: when the linker has no sink, or has one that does not come back from a
message at `LDPL_FATAL`, an entry (after any complete records) whose kind byte is above 4
ends `translate` with the fatal error `invalid symbol kind found`, an entry whose
visibility byte is above 3 ends it with `invalid symbol visibility found`, and no table
is produced; an entry with kind byte 0 to 4 and visibility byte 0 to 3 never ends
`parse_table_entry` with a fatal error, whatever the sink. -/
theorem C4_enum_bytes (tv : Host) (e : Endian) (rs : List SymbolRecord)
    (name key tail : List Byte) (k v : Byte)
    (hrs : ∀ r ∈ rs, r.WellFormed) (hn : ∀ b ∈ name, b ≠ 0) (hk : ∀ b ∈ key, b ≠ 0) :
    (tv.fatal_ends_process → 4 < k.val →
      translate tv e (encode_table e rs ++ (name ++ 0 :: (key ++ 0 :: k :: tail))) =
        .fatal "invalid symbol kind found") ∧
    (tv.fatal_ends_process → k.val ≤ 4 → 3 < v.val →
      translate tv e (encode_table e rs ++ (name ++ 0 :: (key ++ 0 :: k :: v :: tail))) =
        .fatal "invalid symbol visibility found") ∧
    (k.val ≤ 4 → v.val ≤ 3 → ∀ text,
      parse_table_entry tv e (name ++ 0 :: (key ++ 0 :: k :: v :: tail)) ≠ .fatal text) := by
  refine ⟨?_, ?_, ?_⟩
  · intro hf hbad
    obtain ⟨K, hK⟩ := translate_after_records tv e rs
      (name ++ 0 :: (key ++ 0 :: k :: tail)) hrs (by cases name <;> simp)
    rw [hK, parse_table_entry_strings tv e name key _ hn hk]
    have hg : decide (k.val ≤ 4) = false := by simpa using hbad
    simp [deref, hg, check_false_fatal tv hf]
  · intro hf hkind hbad
    obtain ⟨K, hK⟩ := translate_after_records tv e rs
      (name ++ 0 :: (key ++ 0 :: k :: v :: tail)) hrs (by cases name <;> simp)
    rw [hK, parse_table_entry_strings tv e name key _ hn hk]
    obtain ⟨kind, hkind2⟩ := index_translate_kind_le hkind
    have hg : decide (v.val ≤ 3) = false := by simpa using hbad
    simp [deref, hkind, hkind2, hg, check_false_fatal tv hf]
  · intro hkind hvis text
    rw [parse_table_entry_strings tv e name key _ hn hk]
    obtain ⟨kind, hkind2⟩ := index_translate_kind_le hkind
    obtain ⟨vis, hvis2⟩ := index_translate_visibility_le hvis
    simp only [deref, Outcome.ok_bind, hkind, hvis, decide_True, check_true, hkind2, hvis2,
      List.drop_succ_cons, List.drop_zero]
    rcases load_ok_or_oob e 8 tail with ⟨n, h8⟩ | h8
    · rcases load_ok_or_oob e 4 (tail.drop 8) with ⟨m, h4⟩ | h4
      · simp [h8, h4]
      · simp [h8, h4]
    · simp [h8]

/-- C4, amended, at a linker without sink, after the record `foo`: an entry named `a`
with kind byte 5, with visibility byte 4, and with both in range. -/
theorem C4_enum_bytes_witness :
    translate bare_host .little (encode_table .little [rec_foo] ++ ([97] ++ 0 :: ([] ++ 0 :: 5 :: [])))
      = .fatal "invalid symbol kind found" ∧
    translate bare_host .little
      (encode_table .little [rec_foo] ++ ([97] ++ 0 :: ([] ++ 0 :: 4 :: 4 :: []))) =
        .fatal "invalid symbol visibility found" ∧
    ∀ text, parse_table_entry bare_host .little ([97] ++ 0 :: ([] ++ 0 :: 4 :: 3 :: [])) ≠
      .fatal text :=
  have hf : bare_host.fatal_ends_process := fun m hm => by simp [bare_host] at hm
  have hrs : ∀ r ∈ [rec_foo], r.WellFormed := by
    intro r hr
    simp only [List.mem_singleton] at hr
    rw [hr]
    exact rec_foo_wf
  ⟨(C4_enum_bytes bare_host .little [rec_foo] [97] [] [] 5 0 hrs (by simp) (by simp)).1 hf
      (by decide),
   (C4_enum_bytes bare_host .little [rec_foo] [97] [] [] 4 4 hrs (by simp) (by simp)).2.1 hf
      (by decide) (by decide),
   (C4_enum_bytes bare_host .little [rec_foo] [97] [] [] 4 3 hrs (by simp) (by simp)).2.2
      (by decide) (by decide)⟩

/-- C5, counterexample: the record `foo` cut before its four slot bytes does not end
`translate` in a fatal error: the decoder reads the slot beyond the end of the buffer. -/
theorem C5_counterexample :
    translate bare_host .little ((encode_table .little [rec_foo]).take 15) =
      .undefined .out_of_bounds ∧
    ∀ text, translate bare_host .little ((encode_table .little [rec_foo]).take 15) ≠
      .fatal text := by
  have h : translate bare_host .little ((encode_table .little [rec_foo]).take 15) =
      .undefined .out_of_bounds := by
    decide
  exact ⟨h, fun text => by rw [h]; exact fun hc => Outcome.noConfusion hc⟩

/-- C5, amended: `translate` returns a table exactly when the buffer is a sequence of
complete records with strings ended by NUL and enum bytes in range, and the table then
holds these records; nothing checks for the end of the buffer: when the buffer ends
inside a record, after any number of complete records, the decoder reads at or beyond
the end of the buffer instead of ending in a fatal error. -/
theorem C5_trailing_record (tv : Host) (e : Endian) :
    (∀ buf out, translate tv e buf = .ok out ↔
      ∃ rs : List SymbolRecord, (∀ r ∈ rs, r.WellFormed) ∧ buf = encode_table e rs ∧
        out = table_of rs) ∧
    (∀ (rs : List SymbolRecord) (r : SymbolRecord) (cut rest : List Byte),
      (∀ q ∈ rs, q.WellFormed) → r.WellFormed → cut ≠ [] → rest ≠ [] →
      encode_record e r = cut ++ rest →
      translate tv e (encode_table e rs ++ cut) = .undefined .out_of_bounds) := by
  refine ⟨fun buf out => translate_eq_ok_iff tv e buf out, ?_⟩
  intro rs r cut rest hrs hr hcut hrest henc
  obtain ⟨K, hK⟩ := translate_after_records tv e rs cut hrs hcut
  rw [hK, parse_table_entry_cut tv e r cut rest hr hrest henc]
  rfl

/-- C5, amended, at the record `foo` complete, and at the record `bar` cut after
fourteen bytes behind the complete record `foo`. -/
theorem C5_trailing_record_witness :
    translate bare_host .little (encode_table .little [rec_foo]) = .ok (table_of [rec_foo]) ∧
    translate bare_host .little
      (encode_table .little [rec_foo] ++ (encode_record .little rec_bar).take 14) =
        .undefined .out_of_bounds :=
  have hrs : ∀ r ∈ [rec_foo], r.WellFormed := by
    intro r hr
    simp only [List.mem_singleton] at hr
    rw [hr]
    exact rec_foo_wf
  ⟨((C5_trailing_record bare_host .little).1 _ _).mpr ⟨[rec_foo], hrs, rfl, rfl⟩,
   (C5_trailing_record bare_host .little).2 [rec_foo] rec_bar
      ((encode_record .little rec_bar).take 14) ((encode_record .little rec_bar).drop 14)
      hrs rec_bar_wf (by decide) (by decide) (List.take_append_drop 14 _).symm⟩

/-! ## The parallel sequences of a symbol table -/

theorem table_of_parallel (rs : List SymbolRecord) : (table_of rs).parallel := by
  simp [plugin_symtab.parallel, plugin_symtab.symbols, plugin_symtab.slot_ids, table_of,
    grow_getD]

theorem fill_resolutions_length (answer : Nat → ld_plugin_symbol_resolution) (n : Nat)
    (xs : List ld_plugin_symbol) : ∀ j, (fill_resolutions answer n j xs).length = xs.length := by
  induction xs with
  | nil => intro j; rfl
  | cons x xs ih => intro j; simp [fill_resolutions, ih]

/-- The files `write_files` hands back are the files it was given, with the symbols of
each replaced by the same number of symbols. -/
theorem write_files_parallel (tv : Host) (str : Nat → String) :
    ∀ (files : List plugin_file_info) (r : List plugin_file_info × List Call × String),
      write_files tv str files = .ok r → (∀ info ∈ files, info.symtab.parallel) →
      ∀ info ∈ r.1, info.symtab.parallel := by
  intro files
  induction files with
  | nil =>
    intro r h _ info hinfo
    simp only [write_files, Outcome.ok.injEq] at h
    subst h
    simp at hinfo
  | cons f files ih =>
    intro r h hpar info hinfo
    simp only [write_files, Outcome.bind_def, Outcome.pure_def] at h
    obtain ⟨_, _, h⟩ := Outcome.bind_eq_ok.mp h
    obtain ⟨lines, _, h⟩ := Outcome.bind_eq_ok.mp h
    obtain ⟨r1, hr1, h⟩ := Outcome.bind_eq_ok.mp h
    simp only [Outcome.ok.injEq] at h
    subst h
    simp only [List.mem_cons] at hinfo
    rcases hinfo with rfl | hinfo
    · have hf := hpar f (by simp)
      simp only [plugin_symtab.parallel, plugin_symtab.symbols, plugin_symtab.slot_ids,
        Option.getD_some, fill_resolutions_length] at hf ⊢
      exact hf
    · exact ih r1 hr1 (fun i hi => hpar i (by simp [hi])) info hinfo

theorem write_resolution_parallel (tv : Host) (str : Nat → String) (s s1 : plugin_state)
    (hpar : registry_parallel s) (h : write_resolution tv str s = .ok s1) :
    registry_parallel s1 := by
  unfold write_resolution at h
  cases hres : s.resolution_file with
  | none =>
    simp only [hres, Outcome.ok.injEq] at h
    subst h
    exact hpar
  | some path =>
    simp only [hres, Outcome.bind_def, Outcome.pure_def] at h
    obtain ⟨_, _, h⟩ := Outcome.bind_eq_ok.mp h
    split at h
    · simp at h
    · obtain ⟨r, hr, h⟩ := Outcome.bind_eq_ok.mp h
      simp only [Outcome.ok.injEq] at h
      subst h
      exact write_files_parallel tv str s.claimed_files r hr hpar

theorem unlink_claimed_files (s : plugin_state) (path : String) :
    (unlink s path).1.claimed_files = s.claimed_files := by
  unfold unlink
  split <;> rfl

theorem write_file_claimed_files (s : plugin_state) (path : String) (data : FileData) :
    (write_file s path data).1.claimed_files = s.claimed_files := by
  unfold write_file
  split <;> rfl

/-- Opening the object to examine leaves the registry alone. -/
theorem open_object_claimed_files {tv : Host} {file : ld_plugin_input_file}
    {s : plugin_state} {r : plugin_state × String × Bool}
    (h : open_object tv file s = .ok r) : r.1.claimed_files = s.claimed_files := by
  unfold open_object at h
  split at h
  · simp only [Outcome.bind_def, Outcome.pure_def] at h
    obtain ⟨_, _, h⟩ := Outcome.bind_eq_ok.mp h
    obtain ⟨_, _, h⟩ := Outcome.bind_eq_ok.mp h
    obtain ⟨_, _, h⟩ := Outcome.bind_eq_ok.mp h
    obtain ⟨copied, _, h⟩ := Outcome.bind_eq_ok.mp h
    simp only [Outcome.ok.injEq] at h
    subst h
    dsimp only
    split
    · rw [write_file_claimed_files]
    · rfl
  · simp only [Outcome.pure_def, Outcome.ok.injEq] at h
    subst h
    rfl

theorem claim_error_claimed_files {tv : Host} {file : ld_plugin_input_file} {name : String}
    {s : plugin_state} {r : plugin_state × Bool × ld_plugin_status}
    (h : claim_error tv file name s = .ok r) :
    r.1.claimed_files = s.claimed_files ∧ r.2.1 = false := by
  unfold claim_error at h
  split at h
  · simp only [Outcome.bind_def, Outcome.pure_def] at h
    obtain ⟨_, _, h⟩ := Outcome.bind_eq_ok.mp h
    simp only [Outcome.ok.injEq] at h
    subst h
    exact ⟨unlink_claimed_files s name, rfl⟩
  · simp only [Outcome.pure_def, Outcome.ok.injEq] at h
    subst h
    exact ⟨rfl, rfl⟩

/-- What `claim_file_handler` does to the registry: nothing when the file is declined,
one new entry with the table `translate` returned when it is claimed. -/
theorem claim_file_handler_registry {tv : Host} {e : Endian} {file : ld_plugin_input_file}
    {s : plugin_state} {r : plugin_state × Bool × ld_plugin_status}
    (h : claim_file_handler tv e file s = .ok r) :
    (r.2.1 = false ∧ r.1.claimed_files = s.claimed_files) ∨
    (r.2.1 = true ∧ ∃ symtab table name, file.elf = some (some symtab) ∧
      translate tv e symtab = .ok table ∧
      r.1.claimed_files = s.claimed_files ++
        [{ name := name, handle := file.handle, symtab := table,
           temp := decide (file.offset ≠ 0) }]) := by
  unfold claim_file_handler at h
  simp only [Outcome.bind_def, Outcome.pure_def] at h
  obtain ⟨opened, hopen, h⟩ := Outcome.bind_eq_ok.mp h
  have hreg := open_object_claimed_files hopen
  split at h
  · obtain ⟨h1, h2⟩ := claim_error_claimed_files h
    exact Or.inl ⟨h2, by rw [h1, hreg]⟩
  · obtain ⟨h1, h2⟩ := claim_error_claimed_files h
    exact Or.inl ⟨h2, by rw [h1, hreg]⟩
  · rename_i symtab helf
    obtain ⟨table, htable, h⟩ := Outcome.bind_eq_ok.mp h
    obtain ⟨_, _, h⟩ := Outcome.bind_eq_ok.mp h
    simp only [Outcome.ok.injEq] at h
    subst h
    refine Or.inr ⟨rfl, symtab, table, opened.2.1, ?_, htable, ?_⟩
    · by_cases hfd : opened.2.2 = true
      · simpa [hfd] using helf
      · simp [hfd] at helf
    · simp [record, hreg]

/-- C3: whenever `translate` returns a table, its symbol sequence and its slot sequence
both have length `nsyms`, and it returns one on every sequence of well-formed records;
and when every file of the registry has this property, every file of the registry still
has it after a further `claim_file_handler` and after `write_resolution`, in which the
linker's `get_symbols` fills the resolutions in place. -/
theorem C3_parallel_arrays (tv : Host) (e : Endian) (str : Nat → String) :
    (∀ buf out, translate tv e buf = .ok out →
      out.symbols.length = out.nsyms ∧ out.slot_ids.length = out.nsyms) ∧
    (∀ rs : List SymbolRecord, (∀ r ∈ rs, r.WellFormed) →
      ∃ out, translate tv e (encode_table e rs) = .ok out ∧
        out.symbols.length = out.nsyms ∧ out.slot_ids.length = out.nsyms) ∧
    (∀ file s s1 claimed status, registry_parallel s →
      claim_file_handler tv e file s = .ok (s1, claimed, status) → registry_parallel s1) ∧
    (∀ s s1, registry_parallel s → write_resolution tv str s = .ok s1 →
      registry_parallel s1) := by
  refine ⟨?_, ?_, ?_, ?_⟩
  · intro buf out h
    obtain ⟨rs, _, _, hout⟩ := (translate_eq_ok_iff tv e buf out).mp h
    rw [hout]
    exact table_of_parallel rs
  · intro rs hrs
    exact ⟨table_of rs, translate_encode tv e rs hrs, table_of_parallel rs⟩
  · intro file s s1 claimed status hpar h
    rcases claim_file_handler_registry h with ⟨_, hreg⟩ | ⟨_, symtab, table, name, _, ht, hreg⟩
    · intro info hinfo
      have hreg1 : s1.claimed_files = s.claimed_files := hreg
      exact hpar info (by simpa [hreg1] using hinfo)
    · intro info hinfo
      dsimp only at hreg
      simp only [hreg, List.mem_append, List.mem_singleton] at hinfo
      rcases hinfo with hinfo | rfl
      · exact hpar info hinfo
      · obtain ⟨rs, _, _, hout⟩ := (translate_eq_ok_iff tv e symtab table).mp ht
        dsimp only
        rw [hout]
        exact table_of_parallel rs
  · intro s s1 hpar h
    exact write_resolution_parallel tv str s s1 hpar h

theorem session_a_claimed :
    claim_file_handler example_host .little object_a session_0 =
      .ok (session_a, true, .LDPS_OK) := by
  decide

theorem session_ab_claimed :
    claim_file_handler example_host .little object_b session_a =
      .ok (session_ab, true, .LDPS_OK) := by
  decide

theorem session_ab_written :
    write_resolution example_host example_resolution_str session_ab = .ok session_written := by
  decide

/-- C3 on the end-to-end example: the table of `foo` and `bar`, the registry after
claiming `a.o` and then `b.o`, and the registry after the resolution file is written. -/
theorem C3_parallel_arrays_witness :
    (∃ out, translate example_host .little (encode_table .little [rec_foo, rec_bar]) = .ok out ∧
      out.symbols.length = out.nsyms ∧ out.slot_ids.length = out.nsyms) ∧
    registry_parallel session_ab ∧ registry_parallel session_written :=
  have hwf : ∀ r ∈ [rec_foo, rec_bar], r.WellFormed := by
    intro r hr
    simp only [List.mem_cons, List.mem_singleton, List.not_mem_nil, or_false] at hr
    rcases hr with rfl | rfl
    · exact rec_foo_wf
    · exact rec_bar_wf
  have h0 : registry_parallel session_0 := by
    intro info hinfo
    simp [session_0, loaded, process_option] at hinfo
  have ha : registry_parallel session_a :=
    (C3_parallel_arrays example_host .little example_resolution_str).2.2.1
      object_a session_0 session_a true .LDPS_OK h0 session_a_claimed
  have hab : registry_parallel session_ab :=
    (C3_parallel_arrays example_host .little example_resolution_str).2.2.1
      object_b session_a session_ab true .LDPS_OK ha session_ab_claimed
  ⟨(C3_parallel_arrays example_host .little example_resolution_str).2.1 _ hwf, hab,
   (C3_parallel_arrays example_host .little example_resolution_str).2.2.2
      session_ab _ hab session_ab_written⟩

/-! ## Bypass mode -/

theorem use_original_files_loop_ok (tv : Host) (h : tv.add_input_file.isSome) :
    ∀ (files : List plugin_file_info) (s : plugin_state),
      use_original_files_loop tv files s =
        .ok { s with calls := s.calls ++ files.map fun info => Call.add_input_file info.name } := by
  intro files
  induction files with
  | nil => intro s; simp [use_original_files_loop]
  | cons f files ih =>
    intro s
    obtain ⟨g, hg⟩ := Option.isSome_iff_exists.mp h
    simp [use_original_files_loop, call_add_input_file, hg, ih, record]

/-- C7: in bypass mode, when the linker supplies `add_input_file` (needed as soon as a
file is claimed), `all_symbols_read_handler` returns `LDPS_OK` and all it does is to
call `add_input_file` once per claimed file, in registry order, with the name of the
file as it stands in the registry: no other call to the linker and no run of the
wrapper are added to the record, and nothing else changes. -/
theorem C7_bypass (tv : Host) (str : Nat → String) (pex : pex_obj) (s : plugin_state)
    (hnop : s.nop = true) (hcap : s.claimed_files ≠ [] → tv.add_input_file.isSome) :
    all_symbols_read_handler tv str pex s =
      .ok ({ s with calls := s.calls ++
              s.claimed_files.map fun info => Call.add_input_file info.name },
           .LDPS_OK) := by
  unfold all_symbols_read_handler
  by_cases hn : s.claimed_files.length = 0
  · have hnil : s.claimed_files = [] := List.length_eq_zero.mp hn
    simp only [hn, if_true]
    cases s
    simp_all
  · have hne : s.claimed_files ≠ [] := fun h => hn (by simp [h])
    simp only [hn, if_false, hnop, if_true, use_original_files,
      use_original_files_loop_ok tv (hcap hne), Outcome.bind_def, Outcome.ok_bind,
      Outcome.pure_def]

/-- C7 on the end-to-end example in bypass mode: two calls, for `a.o` and `b.o`. -/
theorem C7_bypass_witness :
    session_nop.nop = true ∧
    (session_nop.claimed_files ≠ [] → example_host.add_input_file.isSome) ∧
    session_nop.claimed_files.map (fun info => Call.add_input_file info.name) =
      [Call.add_input_file "a.o", Call.add_input_file "b.o"] ∧
    all_symbols_read_handler example_host example_resolution_str good_pex session_nop =
      .ok ({ session_nop with calls := session_nop.calls ++
              session_nop.claimed_files.map fun info => Call.add_input_file info.name },
           .LDPS_OK) :=
  ⟨rfl, fun _ => rfl, by decide,
   C7_bypass example_host example_resolution_str good_pex session_nop rfl (fun _ => rfl)⟩

/-! ## The slot in the resolution file -/

theorem fmt_d_small (x : Nat) (h : x < 2 ^ 31) : fmt_d x = toString x := by
  have h1 : x % 2 ^ 32 = x := Nat.mod_eq_of_lt (by omega)
  unfold fmt_d
  rw [h1, if_pos h]

theorem fmt_d_large (x : Nat) (h1 : 2 ^ 31 ≤ x) (h2 : x < 2 ^ 32) :
    fmt_d x = "-" ++ toString (2 ^ 32 - x) := by
  have h3 : x % 2 ^ 32 = x := Nat.mod_eq_of_lt h2
  have h4 : ¬ x < 2 ^ 31 := by omega
  unfold fmt_d
  rw [h3, if_neg h4]

/-- C8: the file `h.o` has one symbol, with the slot `2^31`; after it is claimed, the
resolution file that `write_resolution` writes shows the slot as `-2147483648`. -/
theorem C8_slot_written_signed :
    ((claim_file_handler bare_host .little object_high session_0).bind fun r =>
      (write_resolution bare_host example_resolution_str r.1).bind fun s =>
        Outcome.ok (s.claimed_files.map (fun info => info.symtab.slots), s.files)) =
      .ok ([some [2147483648]],
           [("res", FileData.text "1\nh.o 1\n-2147483648 Unknown\n")]) := by
  decide

/-! ## The resolution file -/

theorem index_eq_ok {α : Type} (xs : List α) (j : Nat) (h : j < xs.length) :
    index xs j = .ok xs[j] := by
  simp [index, List.getElem?_eq_getElem h]

theorem fill_resolutions_index (answer : Nat → ld_plugin_symbol_resolution) (n : Nat) :
    ∀ (syms : List ld_plugin_symbol) (i j : Nat), j < syms.length → i + j < n →
      ∃ x, index (fill_resolutions answer n i syms) j = .ok x ∧ x.resolution = answer (i + j) := by
  intro syms
  induction syms with
  | nil => intro i j h _; simp at h
  | cons x xs ih =>
    intro i j h hn
    cases j with
    | zero =>
      have hi : i < n := by omega
      refine ⟨{ x with resolution := answer i }, ?_, rfl⟩
      simp [fill_resolutions, index, hi]
    | succ j =>
      obtain ⟨y, hy, hres⟩ := ih (i + 1) j (by simpa using h) (by omega)
      refine ⟨y, ?_, ?_⟩
      · simpa [fill_resolutions, index] using hy
      · rw [hres]
        congr 1
        omega

theorem answers_length (answer : Nat → ld_plugin_symbol_resolution) (slots : List Nat) :
    ∀ j, (answers answer j slots).length = slots.length := by
  induction slots with
  | nil => intro j; rfl
  | cons x xs ih => intro j; simp [answers, ih]

/-- The inner loop of `write_resolution` writes the lines of the specification when the
slots are below `2^31`. -/
theorem write_symbols_eq (str : Nat → String) (answer : Nat → ld_plugin_symbol_resolution)
    (n : Nat) (slots : Option (List Nat)) (syms : List ld_plugin_symbol)
    (hslots : ∀ x ∈ slots.getD [], x < 2 ^ 31) :
    ∀ k j, (slots.getD []).length = j + k → syms.length = j + k → j + k ≤ n →
      write_symbols str slots (fill_resolutions answer n 0 syms) k j =
        .ok (concat ((answers answer j ((slots.getD []).drop j)).map (symbol_line str))) := by
  intro k
  induction k with
  | zero =>
    intro j h1 _ _
    have : (slots.getD []).drop j = [] := List.drop_eq_nil_of_le (by omega)
    simp [write_symbols, this, answers, concat]
  | succ k ih =>
    intro j h1 h2 h3
    cases slots with
    | none =>
      simp only [Option.getD_none, List.length_nil] at h1
      omega
    | some a =>
      simp only [Option.getD_some] at h1 hslots ih ⊢
      have hj : j < a.length := by omega
      obtain ⟨x, hx, hres⟩ := fill_resolutions_index answer n syms 0 j (by omega) (by omega)
      have hdrop : a.drop j = a[j] :: a.drop (j + 1) := List.drop_eq_getElem_cons hj
      have hsmall : a[j] < 2 ^ 31 := hslots _ (List.getElem_mem hj)
      simp only [write_symbols, Outcome.bind_def, Outcome.pure_def, index_eq_ok a j hj,
        Outcome.ok_bind, hx, ih (j + 1) (by omega) (by omega) (by omega), hdrop, answers,
        List.map_cons, concat, symbol_line, hres, Nat.zero_add, fmt_d_small _ hsmall]

/-- The outer loop of `write_resolution` writes the sections of the specification and
asks the linker once per file. -/
theorem write_files_eq (tv : Host) (str : Nat → String) :
    ∀ files : List plugin_file_info, (∀ info ∈ files, info.printable) →
      ∃ r, write_files tv str files = .ok r ∧
        r.2.1 = files.map (fun info => Call.get_symbols info.handle info.symtab.nsyms) ∧
        r.2.2 = concat (files.map fun info => file_section str (resolved tv info)) := by
  intro files
  induction files with
  | nil => intro _; exact ⟨_, rfl, rfl, rfl⟩
  | cons f files ih =>
    intro h
    obtain ⟨hsome, hsyms, hslots, hn, hsmall⟩ := h f (by simp)
    obtain ⟨r, hr, hcalls, htext⟩ := ih (fun info hinfo => h info (by simp [hinfo]))
    have hw := write_symbols_eq str
      (tv.get_symbols f.handle f.symtab.nsyms (f.symtab.syms.getD [])) f.symtab.nsyms
      f.symtab.slots (f.symtab.syms.getD []) hsmall f.symtab.nsyms 0
      (by simpa [plugin_symtab.slot_ids] using hslots)
      (by simpa [plugin_symtab.symbols] using hsyms) (by omega)
    simp only [write_files, c_assert, hsome, if_true, Outcome.bind_def, Outcome.ok_bind, hw,
      hr, Outcome.pure_def]
    refine ⟨_, rfl, ?_, ?_⟩
    · simp [hcalls]
    · simp only [htext, List.map_cons, concat, file_section, resolved, List.drop_zero,
        answers_length, plugin_symtab.symbols, plugin_symtab.slot_ids] at hslots ⊢
      rw [hslots, fmt_d_small _ hn]

/-- C2: the file `a.o` has an empty symbol-table section. `translate` returns for it a
table of no symbol with a `NULL` symbol array, `claim_file_handler` passes that table
to the linker and claims the file, and `free_1` accepts the registry as it is; the
text the specification asks for is the two lines `1` and `a.o 0`. `write_resolution`
writes no file: it stops at `assert (syms)`. -/
theorem C2_empty_table_assert :
    translate bare_host .little [] =
      .ok { nsyms := 0, slots := none, syms := none } ∧
    claim_file_handler bare_host .little empty_object session_0 =
      .ok (session_empty, true, .LDPS_OK) ∧
    session_empty.resolution_file = some "res" ∧
    session_empty.claimed_files.map (fun info => (info.name, info.symtab.nsyms)) =
      [("a.o", 0)] ∧
    session_empty.claimed_files.map (fun info => info.symtab.syms) = [none] ∧
    session_empty.calls = [Call.add_symbols 1 0 none] ∧
    (free_1 session_empty).bind (fun _ => Outcome.ok ()) = .ok () ∧
    reference_resolution_text example_resolution_str
        (session_empty.claimed_files.map (resolved bare_host)) = "1\na.o 0\n" ∧
    write_resolution bare_host example_resolution_str session_empty =
      .assert_failed "syms" ∧
    write_resolution example_host example_resolution_str session_empty =
      .assert_failed "syms" := by
  decide

/-- What `write_resolution` writes apart from that: when the resolution file can be
opened, the registry holds fewer than `2^31` files, and every file has a symbol array
that is not `NULL`, fewer than `2^31` symbols and slots below `2^31`,
`write_resolution` asks the linker once per file, in registry order, and leaves in the
resolution file exactly the text of the specification: the number of files, then per
file its path and number of symbols followed by one line per symbol, in symbol order,
with the slot and the name of the resolution the linker answered. -/
theorem write_resolution_reference (tv : Host) (str : Nat → String) (s : plugin_state) (path : String)
    (hres : s.resolution_file = some path) (hopen : path ∉ s.unwritable)
    (hcount : s.claimed_files.length < 2 ^ 31)
    (hfiles : ∀ info ∈ s.claimed_files, info.printable) :
    ∃ s1, write_resolution tv str s = .ok s1 ∧
      s1.files = s.files.filter (fun f => f.1 ≠ path) ++
        [(path, FileData.text
          (reference_resolution_text str (s.claimed_files.map (resolved tv))))] ∧
      s1.calls = s.calls ++
        s.claimed_files.map (fun info => Call.get_symbols info.handle info.symtab.nsyms) := by
  obtain ⟨r, hr, hcalls, htext⟩ := write_files_eq tv str s.claimed_files hfiles
  simp only [write_resolution, hres, hopen, not_false_eq_true, decide_True, check_true,
    Outcome.bind_def, Outcome.ok_bind, hr, Outcome.pure_def]
  refine ⟨_, rfl, ?_, ?_⟩
  · simp [write_file, hopen, htext, reference_resolution_text, fmt_d_small _ hcount]
    rfl
  · simp [write_file, hopen, hcalls]

/-- The end-to-end example: the file written for `a.o` (foo Prevailing, bar Resolved)
and `b.o` (baz Prevailing) has the six lines of the specification. -/
theorem write_resolution_reference_example :
    session_ab.resolution_file = some "res" ∧ "res" ∉ session_ab.unwritable ∧
    session_ab.claimed_files.length < 2 ^ 31 ∧
    (∀ info ∈ session_ab.claimed_files, info.printable) ∧
    reference_resolution_text example_resolution_str
        (session_ab.claimed_files.map (resolved example_host)) =
      "2\na.o 2\n0 Prevailing\n1 Resolved\nb.o 1\n0 Prevailing\n" ∧
    ∃ s1, write_resolution example_host example_resolution_str session_ab = .ok s1 ∧
      s1.files = session_ab.files.filter (fun f => f.1 ≠ "res") ++
        [("res", FileData.text (reference_resolution_text example_resolution_str
          (session_ab.claimed_files.map (resolved example_host))))] ∧
      s1.calls = session_ab.calls ++ session_ab.claimed_files.map
        (fun info => Call.get_symbols info.handle info.symtab.nsyms) :=
  have h1 : session_ab.resolution_file = some "res" := by decide
  have h2 : "res" ∉ session_ab.unwritable := by decide
  have h3 : session_ab.claimed_files.length < 2 ^ 31 := by decide
  have h4 : ∀ info ∈ session_ab.claimed_files, info.printable := by decide
  ⟨h1, h2, h3, h4, by decide,
   write_resolution_reference example_host example_resolution_str session_ab "res" h1 h2 h3 h4⟩

/-! ## Teardown -/

theorem bare_host_fatal : bare_host.fatal_ends_process :=
  fun m hm => by simp [bare_host] at hm

theorem unlink_absent (s : plugin_state) (path : String) :
    file_exists (unlink s path).1 path = false := by
  unfold unlink
  by_cases h : file_exists s path = true
  · rw [if_pos h]
    simp [file_exists]
  · rw [if_neg h]
    simpa using h

theorem unlink_subset (s : plugin_state) (path p : String)
    (h : file_exists (unlink s path).1 p = true) : file_exists s p = true := by
  unfold unlink at h
  split at h
  · simp only [file_exists, List.any_eq_true, List.mem_filter] at h ⊢
    obtain ⟨f, ⟨hf, _⟩, hp⟩ := h
    exact ⟨f, hf, hp⟩
  · exact h

theorem unlink_debug (s : plugin_state) (path : String) : (unlink s path).1.debug = s.debug := by
  unfold unlink
  split <;> rfl

theorem unlink_temp_obj_dir_name (s : plugin_state) (path : String) :
    (unlink s path).1.temp_obj_dir_name = s.temp_obj_dir_name := by
  unfold unlink
  split <;> rfl

theorem rmdir_debug (s : plugin_state) (dir : Option String) :
    (rmdir s dir).1.debug = s.debug := by
  unfold rmdir
  split
  · rfl
  · split <;> rfl

/-- The first loop of `cleanup_handler` changes nothing but the files on disk, of which
it only removes some, and leaves no temporary file of the registry on disk. -/
theorem unlink_temporaries_ok (tv : Host) :
    ∀ (files : List plugin_file_info) (s s1 : plugin_state),
      unlink_temporaries tv files s = .ok s1 →
      s1.claimed_files = s.claimed_files ∧ s1.debug = s.debug ∧
      s1.temp_obj_dir_name = s.temp_obj_dir_name ∧
      (∀ p, file_exists s1 p = true → file_exists s p = true) ∧
      (∀ info ∈ files, info.temp = true → file_exists s1 info.name = false) := by
  intro files
  induction files with
  | nil =>
    intro s s1 h
    simp only [unlink_temporaries, Outcome.ok.injEq] at h
    subst h
    exact ⟨rfl, rfl, rfl, fun _ hp => hp, by simp⟩
  | cons f files ih =>
    intro s s1 h
    unfold unlink_temporaries at h
    by_cases ht : f.temp = true
    · simp only [ht, if_true, Outcome.bind_def] at h
      obtain ⟨_, _, h⟩ := Outcome.bind_eq_ok.mp h
      obtain ⟨h1, h2, h3, h4, h5⟩ := ih _ s1 h
      refine ⟨by rw [h1, unlink_claimed_files], by rw [h2, unlink_debug],
        by rw [h3, unlink_temp_obj_dir_name], fun p hp => unlink_subset s f.name p (h4 p hp), ?_⟩
      intro info hinfo htemp
      simp only [List.mem_cons] at hinfo
      rcases hinfo with rfl | hinfo
      · cases hex : file_exists s1 info.name with
        | false => rfl
        | true =>
          have := h4 _ hex
          rw [unlink_absent] at this
          exact absurd this (by simp)
      · exact h5 info hinfo htemp
    · simp only [ht] at h
      obtain ⟨h1, h2, h3, h4, h5⟩ := ih s s1 h
      refine ⟨h1, h2, h3, h4, ?_⟩
      intro info hinfo htemp
      simp only [List.mem_cons] at hinfo
      rcases hinfo with rfl | hinfo
      · exact absurd htemp ht
      · exact h5 info hinfo htemp

/-- Without a temporary file in the registry the first loop of `cleanup_handler` does
nothing. -/
theorem unlink_temporaries_none (tv : Host) :
    ∀ (files : List plugin_file_info) (s : plugin_state),
      (∀ info ∈ files, info.temp = false) → unlink_temporaries tv files s = .ok s := by
  intro files
  induction files with
  | nil => intro s _; rfl
  | cons f files ih =>
    intro s h
    have hf : f.temp = false := h f (by simp)
    simp [unlink_temporaries, hf, ih s (fun info hinfo => h info (by simp [hinfo]))]

/-- When the temporary files of the registry are gone from the disk and there is one,
the first loop of `cleanup_handler` ends in a fatal error. -/
theorem unlink_temporaries_again (tv : Host) (hf : tv.fatal_ends_process) :
    ∀ (files : List plugin_file_info) (s : plugin_state),
      (∀ info ∈ files, info.temp = true → file_exists s info.name = false) →
      (∃ info ∈ files, info.temp = true) →
      unlink_temporaries tv files s = .fatal "could not unlink temporary file" := by
  intro files
  induction files with
  | nil => intro s _ h; simp at h
  | cons f files ih =>
    intro s habsent hex
    unfold unlink_temporaries
    by_cases ht : f.temp = true
    · have hgone : file_exists s f.name = false := habsent f (by simp) ht
      simp [ht, unlink, hgone, check_false_fatal tv hf]
    · simp only [ht]
      apply ih s (fun info hinfo => habsent info (by simp [hinfo]))
      obtain ⟨info, hinfo, htemp⟩ := hex
      simp only [List.mem_cons] at hinfo
      rcases hinfo with rfl | hinfo
      · exact absurd htemp ht
      · exact ⟨info, hinfo, htemp⟩

theorem free_2_eq_ok {s s1 : plugin_state} (h : free_2 s = .ok s1) :
    s1.claimed_files = [] ∧ s1.temp_obj_dir_name = none ∧ s1.resolution_file = none ∧
    s1.debug = s.debug := by
  unfold free_2 at h
  split at h
  · simp at h
  · simp only [Outcome.ok.injEq] at h
    subst h
    exact ⟨rfl, rfl, rfl, rfl⟩
  · simp only [Outcome.ok.injEq] at h
    subst h
    exact ⟨rfl, rfl, rfl, rfl⟩

/-- What a teardown outside debug mode leaves when it ends well. -/
theorem cleanup_handler_eq_ok {tv : Host} {s s1 : plugin_state} {status : ld_plugin_status}
    (hd : s.debug = false) (h : cleanup_handler tv s = .ok (s1, status)) :
    s1.claimed_files = [] ∧ s1.temp_obj_dir_name = none ∧ s1.resolution_file = none ∧
    s1.debug = false ∧ status = .LDPS_OK := by
  unfold cleanup_handler at h
  simp only [Outcome.bind_def, Outcome.pure_def] at h
  obtain ⟨s2, h2, h⟩ := Outcome.bind_eq_ok.mp h
  have hd2 : s2.debug = false := by
    rw [(unlink_temporaries_ok tv _ _ _ h2).2.1, hd]
  simp only [hd2, Bool.false_eq_true, if_false, check_true, Outcome.ok_bind] at h
  split at h
  · obtain ⟨_, _, h⟩ := Outcome.bind_eq_ok.mp h
    obtain ⟨_, _, h⟩ := Outcome.bind_eq_ok.mp h
    obtain ⟨s4, h4, h⟩ := Outcome.bind_eq_ok.mp h
    simp only [Outcome.ok.injEq, Prod.mk.injEq] at h
    obtain ⟨h5, h6⟩ := h
    subst h5
    obtain ⟨g1, g2, g3, g4⟩ := free_2_eq_ok h4
    exact ⟨g1, g2, g3, by rw [g4, rmdir_debug, unlink_debug, hd2], h6.symm⟩
  · obtain ⟨_, _, h⟩ := Outcome.bind_eq_ok.mp h
    obtain ⟨s4, h4, h⟩ := Outcome.bind_eq_ok.mp h
    simp only [Outcome.ok.injEq, Prod.mk.injEq] at h
    obtain ⟨h5, h6⟩ := h
    subst h5
    obtain ⟨g1, g2, g3, g4⟩ := free_2_eq_ok h4
    exact ⟨g1, g2, g3, by rw [g4, rmdir_debug, hd2], h6.symm⟩

/-- A teardown outside debug mode on a session whose registry and directory name have
been reset ends in a fatal error: `rmdir` of the null name fails. -/
theorem cleanup_handler_reset (tv : Host) (hf : tv.fatal_ends_process) (s : plugin_state)
    (h1 : s.claimed_files = []) (h2 : s.temp_obj_dir_name = none) (h3 : s.debug = false) :
    cleanup_handler tv s = .fatal "could not unlink arguments file" ∨
    cleanup_handler tv s = .fatal "could not remove temporary directory" := by
  unfold cleanup_handler
  simp only [h1, unlink_temporaries, Outcome.bind_def, Outcome.ok_bind, h3, Bool.false_eq_true,
    if_false, check_true, Outcome.pure_def]
  by_cases hstat : stat_ok s (fmt_s s.temp_obj_dir_name ++ "/arguments") = true
  · simp only [hstat, if_true]
    by_cases hu : (unlink s (fmt_s s.temp_obj_dir_name ++ "/arguments")).2 = 0
    · right
      simp only [hu, decide_True, check_true, Outcome.ok_bind, unlink_temp_obj_dir_name]
      rw [h2]
      simp [rmdir, check_false_fatal tv hf]
    · left
      simp only [hu, decide_False, check_false_fatal tv hf, Outcome.fatal_bind]
  · right
    have hstat1 : stat_ok s (fmt_s s.temp_obj_dir_name ++ "/arguments") = false := by
      simpa using hstat
    simp only [hstat1, Bool.false_eq_true, if_false, Outcome.ok_bind]
    rw [h2]
    simp [rmdir, check_false_fatal tv hf]

/-- C6, counterexample: on a freshly loaded session the first teardown ends well and the
second one ends in the fatal error `could not remove temporary directory`. -/
theorem C6_counterexample :
    cleanup_handler bare_host session_0 = .ok (session_torn, .LDPS_OK) ∧
    cleanup_handler bare_host session_torn =
      .fatal "could not remove temporary directory" := by
  decide

/-- C6, amended: teardown is not idempotent. With a linker whose `LDPL_FATAL` messages
end the process: outside debug mode, a teardown that ends well returns `LDPS_OK` and
leaves the registry empty and the names of the temporary directory and of the
resolution file reset, and a second teardown right after it ends in a fatal error
(the directory cannot be removed through the reset name); in debug mode, a teardown
that ends well keeps the registry, and a second one ends in the fatal error `could not
unlink temporary file` as soon as the registry holds a temporary file. Only in debug
mode with no temporary file in the registry does a teardown, first or second, change
nothing. -/
theorem C6_teardown_twice (tv : Host) (s : plugin_state) :
    (tv.fatal_ends_process → s.debug = false → ∀ s1 status,
      cleanup_handler tv s = .ok (s1, status) →
      status = .LDPS_OK ∧ s1.claimed_files = [] ∧ s1.temp_obj_dir_name = none ∧
      s1.resolution_file = none ∧
      (cleanup_handler tv s1 = .fatal "could not unlink arguments file" ∨
       cleanup_handler tv s1 = .fatal "could not remove temporary directory")) ∧
    (tv.fatal_ends_process → s.debug = true → (∃ info ∈ s.claimed_files, info.temp = true) →
      ∀ s1 status, cleanup_handler tv s = .ok (s1, status) →
      s1.claimed_files = s.claimed_files ∧
      cleanup_handler tv s1 = .fatal "could not unlink temporary file") ∧
    (s.debug = true → (∀ info ∈ s.claimed_files, info.temp = false) →
      cleanup_handler tv s = .ok (s, .LDPS_OK)) := by
  refine ⟨?_, ?_, ?_⟩
  · intro hf hd s1 status h
    obtain ⟨g1, g2, g3, g4, g5⟩ := cleanup_handler_eq_ok hd h
    exact ⟨g5, g1, g2, g3, cleanup_handler_reset tv hf s1 g1 g2 g4⟩
  · intro hf hd hex s1 status h
    unfold cleanup_handler at h
    simp only [Outcome.bind_def, Outcome.pure_def] at h
    obtain ⟨s2, h2, h⟩ := Outcome.bind_eq_ok.mp h
    obtain ⟨k1, k2, _, _, k5⟩ := unlink_temporaries_ok tv _ _ _ h2
    have hd2 : s2.debug = true := by rw [k2, hd]
    simp only [hd2, if_true, Outcome.ok.injEq, Prod.mk.injEq] at h
    obtain ⟨h, _⟩ := h
    subst h
    refine ⟨k1, ?_⟩
    unfold cleanup_handler
    rw [k1, unlink_temporaries_again tv hf s.claimed_files s2 k5 hex]
    rfl
  · intro hd hnone
    unfold cleanup_handler
    simp [unlink_temporaries_none tv s.claimed_files s hnone, hd]

/-- C6, amended, on three sessions: freshly loaded, in debug mode with a claimed archive
member, and in debug mode with nothing claimed. -/
theorem C6_teardown_twice_witness :
    (session_torn.claimed_files = [] ∧ session_torn.temp_obj_dir_name = none ∧
      (cleanup_handler bare_host session_torn = .fatal "could not unlink arguments file" ∨
       cleanup_handler bare_host session_torn =
        .fatal "could not remove temporary directory")) ∧
    (session_debug_torn.claimed_files = session_debug_member.claimed_files ∧
      cleanup_handler bare_host session_debug_torn =
        .fatal "could not unlink temporary file") ∧
    cleanup_handler bare_host session_debug = .ok (session_debug, .LDPS_OK) :=
  have h1 := (C6_teardown_twice bare_host session_0).1 bare_host_fatal (by decide)
    session_torn .LDPS_OK (by decide)
  ⟨⟨h1.2.1, h1.2.2.1, h1.2.2.2.2⟩,
   (C6_teardown_twice bare_host session_debug_member).2.1 bare_host_fatal (by decide)
     (by decide) session_debug_torn .LDPS_OK (by decide),
   (C6_teardown_twice bare_host session_debug).2.2 (by decide) (by decide)⟩

/-! ## The output of the wrapper -/

theorem read_line_terminated (l rest : List Char) (hl : Char.ofNat 10 ∉ l) :
    ∀ k, l.length < k → read_line k (l ++ Char.ofNat 10 :: rest) = (l ++ [Char.ofNat 10], rest) := by
  induction l with
  | nil =>
    intro k hk
    cases k with
    | zero => omega
    | succ k => simp [read_line]
  | cons c l ih =>
    intro k hk
    cases k with
    | zero => omega
    | succ k =>
      have hc : c ≠ Char.ofNat 10 := fun h => hl (by simp [h])
      have hl2 : Char.ofNat 10 ∉ l := fun h => hl (by simp [h])
      simp only [List.length_cons] at hk
      simp [read_line, hc, ih hl2 k (by omega)]

theorem read_line_unterminated (l : List Char) (hl : Char.ofNat 10 ∉ l) :
    ∀ k, read_line k l = (l.take k, l.drop k) := by
  induction l with
  | nil =>
    intro k
    cases k <;> simp [read_line]
  | cons c l ih =>
    intro k
    cases k with
    | zero => simp [read_line]
    | succ k =>
      have hc : c ≠ Char.ofNat 10 := fun h => hl (by simp [h])
      have hl2 : Char.ofNat 10 ∉ l := fun h => hl (by simp [h])
      simp [read_line, hc, ih hl2 k]

theorem line_strlen_no_nul (l : List Char) (hl : Char.ofNat 0 ∉ l) :
    line_strlen l = l.length := by
  unfold line_strlen
  rw [List.takeWhile_eq_self_iff.mpr]
  intro c hc
  have : c ≠ Char.ofNat 0 := fun h => hl (h ▸ hc)
  simpa using this

theorem heap_array.append_null_cons {α : Type} (x : α) (xs : List α) :
    (heap_array.live [x]).append xs = heap_array.null.append (x :: xs) := by
  cases xs <;> simp [heap_array.append]

theorem heap_array.append_live_cons {α : Type} (ys : List α) (x : α) (xs : List α) :
    (heap_array.live (ys ++ [x])).append xs = (heap_array.live ys).append (x :: xs) := by
  cases xs <;> simp [heap_array.append]

/-- The loop of `add_output_files` on short lines followed by `rest`: every line is
handed to the linker and kept, in order, and the loop goes on with `rest`. -/
theorem add_output_files_loop_lines (tv : Host) (hcap : tv.add_input_file.isSome)
    (rest : List Char) :
    ∀ (lines : List (List Char)) (fuel : Nat) (s : plugin_state),
      (∀ l ∈ lines, short_line l) → s.output_files ≠ .freed → lines.length ≤ fuel →
      add_output_files_loop tv fuel (output_text lines ++ rest) s =
        add_output_files_loop tv (fuel - lines.length) rest
          { s with output_files := s.output_files.append (lines.map String.mk)
                   calls := s.calls ++ (lines.map String.mk).map Call.add_input_file } := by
  intro lines
  induction lines with
  | nil =>
    intro fuel s _ _ _
    cases s
    simp [output_text, heap_array.append]
  | cons l ls ih =>
    intro fuel s hshort hlive hfuel
    obtain ⟨hnl, hnul, hlen⟩ := hshort l (by simp)
    obtain ⟨g, hg⟩ := Option.isSome_iff_exists.mp hcap
    cases fuel with
    | zero => simp at hfuel
    | succ fuel =>
      simp only [List.length_cons] at hfuel
      have hstream : output_text (l :: ls) ++ rest =
          l ++ Char.ofNat 10 :: (output_text ls ++ rest) := by
        simp [output_text]
      have hne : ∃ c t, l ++ Char.ofNat 10 :: (output_text ls ++ rest) = c :: t := by
        cases l with
        | nil => exact ⟨_, _, rfl⟩
        | cons c t => exact ⟨_, _, rfl⟩
      obtain ⟨c, t, hct⟩ := hne
      have hgets : fgets 1000 (l ++ Char.ofNat 10 :: (output_text ls ++ rest)) =
          some (l ++ [Char.ofNat 10], output_text ls ++ rest) := by
        rw [hct]
        simp only [fgets]
        rw [← hct, read_line_terminated l _ hnl 999 (by omega)]
      have hnul2 : Char.ofNat 0 ∉ l ++ [Char.ofNat 10] := by
        simp only [List.mem_append, List.mem_singleton, not_or]
        exact ⟨hnul, by decide⟩
      have hlen2 : line_strlen (l ++ [Char.ofNat 10]) = l.length + 1 := by
        rw [line_strlen_no_nul _ hnul2]
        simp
      have hidx : index (l ++ [Char.ofNat 10]) l.length = .ok (Char.ofNat 10) := by
        simp [index]
      have htake : List.take l.length (l ++ [Char.ofNat 10]) = l := by simp
      rw [hstream]
      cases hs : s.output_files with
      | freed => exact absurd hs hlive
      | null =>
        simp only [add_output_files_loop, hgets, hlen2, Nat.add_sub_cancel, Nat.succ_ne_zero,
          if_false, Outcome.bind_def, Outcome.pure_def, hidx, Outcome.ok_bind, decide_True,
          check_true, htake, hs, call_add_input_file, hg, record]
        rw [ih fuel _ (fun x hx => hshort x (by simp [hx])) (by simp) (by omega)]
        simp only [heap_array.append_null_cons, List.map_cons, List.append_assoc,
          List.singleton_append, Nat.succ_sub_succ, List.length_cons]
      | live xs =>
        simp only [add_output_files_loop, hgets, hlen2, Nat.add_sub_cancel, Nat.succ_ne_zero,
          if_false, Outcome.bind_def, Outcome.pure_def, hidx, Outcome.ok_bind, decide_True,
          check_true, htake, hs, call_add_input_file, hg, record]
        rw [ih fuel _ (fun x hx => hshort x (by simp [hx])) (by simp) (by omega)]
        simp only [heap_array.append_live_cons, List.map_cons, List.append_assoc,
          List.singleton_append, Nat.succ_sub_succ, List.length_cons]

theorem output_text_length (lines : List (List Char)) :
    lines.length ≤ (output_text lines).length := by
  induction lines with
  | nil => simp
  | cons l ls ih => simp [output_text]; omega

/-- C9, counterexample: a single line of 999 characters ended by a newline does not fit
the buffer of `add_output_files`, which ends in the fatal error `file name too long`. -/
theorem C9_counterexample :
    add_output_files bare_host (output_text [List.replicate 999 'a']) session_0 =
      .fatal "file name too long" := by
  set_option maxRecDepth 100000 in
  decide

/-- C9, amended: when the output of the wrapper consists of lines of at most 998
characters, without NUL, each ended by a newline, `add_output_files` ends well, calls
`add_input_file` once per line, in order, with the line less its newline, and appends
the same strings in the same order to `output_files`; when such lines are followed by a
last line that is not ended by a newline, it ends in the fatal error `file name too
long`, provided a message at `LDPL_FATAL` ends the process. -/
theorem C9_backend_output (tv : Host) (s : plugin_state) (lines : List (List Char))
    (hcap : tv.add_input_file.isSome) (hlive : s.output_files ≠ .freed)
    (hlines : ∀ l ∈ lines, short_line l) :
    add_output_files tv (output_text lines) s =
      .ok { s with output_files := s.output_files.append (lines.map String.mk)
                   calls := s.calls ++ (lines.map String.mk).map Call.add_input_file } ∧
    (∀ last : List Char, tv.fatal_ends_process → last ≠ [] → Char.ofNat 10 ∉ last →
      Char.ofNat 0 ∉ last →
      add_output_files tv (output_text lines ++ last) s = .fatal "file name too long") := by
  constructor
  · have h := add_output_files_loop_lines tv hcap [] lines ((output_text lines).length + 1) s
      hlines hlive (by have := output_text_length lines; omega)
    rw [List.append_nil] at h
    unfold add_output_files
    rw [h]
    obtain ⟨k, hk⟩ : ∃ k, (output_text lines).length + 1 - lines.length = k + 1 :=
      ⟨(output_text lines).length - lines.length, by
        have := output_text_length lines; omega⟩
    rw [hk]
    simp [add_output_files_loop, fgets]
  · intro last hf hne hnl hnul
    unfold add_output_files
    rw [add_output_files_loop_lines tv hcap last lines _ s hlines hlive (by
      have := output_text_length lines
      rw [List.length_append]
      omega)]
    obtain ⟨k, hk⟩ : ∃ k, (output_text lines ++ last).length + 1 - lines.length = k + 1 :=
      ⟨(output_text lines ++ last).length - lines.length, by
        have := output_text_length lines
        rw [List.length_append]
        omega⟩
    rw [hk]
    obtain ⟨c, t, hct⟩ : ∃ c t, last = c :: t := by
      cases last with
      | nil => exact absurd rfl hne
      | cons c t => exact ⟨c, t, rfl⟩
    have hgets : fgets 1000 last = some (last.take 999, last.drop 999) := by
      rw [hct]
      simp only [fgets]
      rw [← hct, read_line_unterminated last hnl 999]
    have hnul2 : Char.ofNat 0 ∉ last.take 999 := fun h => hnul (List.mem_of_mem_take h)
    have hlen : line_strlen (last.take 999) = (last.take 999).length :=
      line_strlen_no_nul _ hnul2
    have hpos : 0 < (last.take 999).length := by
      rw [hct]
      simp
    have hidx : ∃ c, index (last.take 999) ((last.take 999).length - 1) = .ok c ∧
        c ≠ Char.ofNat 10 := by
      refine ⟨(last.take 999)[(last.take 999).length - 1], index_eq_ok _ _ (by omega), ?_⟩
      intro h
      apply hnl
      apply List.mem_of_mem_take (n := 999)
      rw [← h]
      exact List.getElem_mem _
    obtain ⟨c1, hc1, hc2⟩ := hidx
    have hz : (last.take 999).length ≠ 0 := by omega
    simp only [add_output_files_loop, hgets, hlen, hz, if_false, hc1, Outcome.bind_def,
      Outcome.ok_bind, hc2, decide_False, check_false_fatal tv hf, Outcome.fatal_bind]

theorem example_host_fatal : example_host.fatal_ends_process :=
  fun m hm => by simp [example_host, bare_host] at hm

/-- C9, amended, on an output of two lines, and on the same output followed by a third
line without newline. -/
theorem C9_backend_output_witness :
    add_output_files example_host (output_text ["a.ltrans.o".data, "b.ltrans.o".data]) session_0 =
      .ok { session_0 with
            output_files := session_0.output_files.append
              (["a.ltrans.o".data, "b.ltrans.o".data].map String.mk)
            calls := session_0.calls ++
              (["a.ltrans.o".data, "b.ltrans.o".data].map String.mk).map Call.add_input_file } ∧
    add_output_files example_host
        (output_text ["a.ltrans.o".data, "b.ltrans.o".data] ++ "c.ltrans.o".data) session_0 =
      .fatal "file name too long" :=
  have h := C9_backend_output example_host session_0 ["a.ltrans.o".data, "b.ltrans.o".data]
    rfl (by decide) (by
      intro l hl
      simp only [List.mem_cons, List.mem_singleton, List.not_mem_nil, or_false] at hl
      rcases hl with rfl | rfl <;> exact ⟨by decide, by decide, by decide⟩)
  ⟨h.1, h.2 "c.ltrans.o".data example_host_fatal (by decide) (by decide) (by decide)⟩

/-! ## The argument vector of the wrapper -/

theorem put_args_replicate :
    ∀ (xs pre : List (Option String)) (m : Nat), xs.length ≤ m →
      put_args (pre ++ List.replicate m none) pre.length xs =
        .ok (pre ++ xs ++ List.replicate (m - xs.length) none, pre.length + xs.length) := by
  intro xs
  induction xs with
  | nil => intro pre m _; simp [put_args]
  | cons x xs ih =>
    intro pre m hm
    cases m with
    | zero => simp at hm
    | succ m =>
      simp only [List.length_cons] at hm
      have hlt : pre.length < (pre ++ List.replicate (m + 1) none).length := by
        simp
      have hset : (pre ++ List.replicate (m + 1) (none : Option String)).set pre.length x =
          (pre ++ [x]) ++ List.replicate m none := by
        rw [List.set_append_right _ _ (Nat.le_refl _)]
        simp [List.replicate_succ]
      have hih := ih (pre ++ [x]) m (by omega)
      simp only [List.length_append, List.length_singleton] at hih
      simp only [put_args, hlt, if_true, hset, hih, List.length_cons, Nat.succ_sub_succ]
      simp [Nat.add_comm, Nat.add_left_comm]

/-- The vector that `all_symbols_read_handler` fills is the forwarded options, the names
of the claimed files and the terminator, and it fits the allocated array. -/
theorem fill_lto_argv_eq (s : plugin_state) (fwd names : List String)
    (hfwd : s.lto_wrapper_argv = some fwd)
    (hnames : s.claimed_files.map (fun info => info.name) = names) :
    fill_lto_argv (names.length + fwd.length + 1) s = .ok ((fwd ++ names).map some ++ [none]) := by
  have hmap : s.claimed_files.map (fun info => some info.name) = names.map some := by
    rw [← hnames, List.map_map]
    rfl
  have h1 := put_args_replicate (fwd.map some) [] (names.length + fwd.length + 1)
    (by simp; omega)
  have h2 := put_args_replicate (names.map some) (fwd.map some) (names.length + 1) (by simp)
  have h3 := put_args_replicate [none] (fwd.map some ++ names.map some) 1 (by simp)
  simp only [List.nil_append, List.length_nil, List.length_map, List.length_append,
    List.length_singleton, Nat.sub_self, List.replicate_zero, List.append_nil,
    Nat.add_sub_cancel_left] at h1 h2 h3
  have e1 : names.length + fwd.length + 1 - fwd.length = names.length + 1 := by omega
  rw [e1] at h1
  unfold fill_lto_argv
  simp only [hfwd, Option.getD_some, hmap, Outcome.bind_def, Outcome.pure_def, h1,
    Outcome.ok_bind, h2, Nat.zero_add]
  rw [h3]
  simp

theorem c_argv_terminated (xs : List String) (tail : List (Option String)) :
    c_argv (xs.map some ++ none :: tail) = .ok xs := by
  induction xs with
  | nil => rfl
  | cons x xs ih => simp [c_argv, ih]

theorem at_args_name (t : String) : String.mk (("@" ++ t).data.drop 1) = t := by
  simp [String.data_append]

theorem write_files_keeps (tv : Host) (str : Nat → String) :
    ∀ (files : List plugin_file_info) (r : List plugin_file_info × List Call × String),
      write_files tv str files = .ok r →
      r.1.map (fun info => info.name) = files.map (fun info => info.name) ∧
      r.2.1.filter is_exec = [] := by
  intro files
  induction files with
  | nil =>
    intro r h
    simp only [write_files, Outcome.ok.injEq] at h
    subst h
    exact ⟨rfl, rfl⟩
  | cons f files ih =>
    intro r h
    simp only [write_files, Outcome.bind_def, Outcome.pure_def] at h
    obtain ⟨_, _, h⟩ := Outcome.bind_eq_ok.mp h
    obtain ⟨lines, _, h⟩ := Outcome.bind_eq_ok.mp h
    obtain ⟨r1, hr1, h⟩ := Outcome.bind_eq_ok.mp h
    simp only [Outcome.ok.injEq] at h
    subst h
    obtain ⟨h1, h2⟩ := ih r1 hr1
    exact ⟨by simp [h1], by simp [List.filter, is_exec, h2]⟩

/-- What `write_resolution` keeps: the forwarded options, the names of the claimed
files, the name of the temporary directory, and the calls that run the wrapper. -/
theorem write_resolution_keeps {tv : Host} {str : Nat → String} {s s1 : plugin_state}
    (h : write_resolution tv str s = .ok s1) :
    s1.lto_wrapper_argv = s.lto_wrapper_argv ∧
    s1.claimed_files.map (fun info => info.name) = s.claimed_files.map (fun info => info.name) ∧
    s1.temp_obj_dir_name = s.temp_obj_dir_name ∧
    s1.calls.filter is_exec = s.calls.filter is_exec := by
  unfold write_resolution at h
  cases hres : s.resolution_file with
  | none =>
    simp only [hres, Outcome.ok.injEq] at h
    subst h
    exact ⟨rfl, rfl, rfl, rfl⟩
  | some path =>
    simp only [hres, Outcome.bind_def, Outcome.pure_def] at h
    obtain ⟨_, _, h⟩ := Outcome.bind_eq_ok.mp h
    split at h
    · simp at h
    · obtain ⟨r, hr, h⟩ := Outcome.bind_eq_ok.mp h
      simp only [Outcome.ok.injEq] at h
      subst h
      obtain ⟨h1, h2⟩ := write_files_keeps tv str _ r hr
      refine ⟨?_, h1, ?_, ?_⟩
      · simp only [write_file]
        split <;> rfl
      · simp only [write_file]
        split <;> rfl
      · simp only [write_file, List.filter_append, h2, List.append_nil]
        split <;> rfl

theorem free_1_files_names :
    ∀ (files fs : List plugin_file_info), free_1_files files = .ok fs →
      fs.map (fun info => info.name) = files.map (fun info => info.name) := by
  intro files
  induction files with
  | nil =>
    intro fs h
    simp only [free_1_files, Outcome.ok.injEq] at h
    subst h
    rfl
  | cons f files ih =>
    intro fs h
    simp only [free_1_files, Outcome.bind_def, Outcome.pure_def] at h
    obtain ⟨f1, hf1, h⟩ := Outcome.bind_eq_ok.mp h
    obtain ⟨fs1, hfs1, h⟩ := Outcome.bind_eq_ok.mp h
    simp only [Outcome.ok.injEq] at h
    subst h
    have hname : f1.name = f.name := by
      unfold free_1_file at hf1
      split at hf1
      · simp only [Outcome.ok.injEq] at hf1
        rw [← hf1]
      · split at hf1
        · simp at hf1
        · split at hf1
          · simp only [Outcome.ok.injEq] at hf1
            rw [← hf1]
          · simp at hf1
    simp [hname, ih fs1 hfs1]

theorem free_1_keeps {s s1 : plugin_state} (h : free_1 s = .ok s1) :
    s1.lto_wrapper_argv = s.lto_wrapper_argv ∧
    s1.claimed_files.map (fun info => info.name) = s.claimed_files.map (fun info => info.name) ∧
    s1.temp_obj_dir_name = s.temp_obj_dir_name ∧ s1.calls = s.calls := by
  unfold free_1 at h
  simp only [Outcome.bind_def, Outcome.pure_def] at h
  obtain ⟨fs, hfs, h⟩ := Outcome.bind_eq_ok.mp h
  simp only [Outcome.ok.injEq] at h
  subst h
  exact ⟨rfl, free_1_files_names _ fs hfs, rfl, rfl⟩

theorem call_add_input_file_calls {tv : Host} {s s1 : plugin_state} {name : String}
    (h : call_add_input_file tv s name = .ok s1) :
    s1.calls.filter is_exec = s.calls.filter is_exec := by
  unfold call_add_input_file at h
  split at h
  · simp at h
  · simp only [Outcome.ok.injEq] at h
    subst h
    simp [record, List.filter_append, List.filter, is_exec]

theorem call_add_input_library_calls {tv : Host} {s s1 : plugin_state} {name : String}
    (h : call_add_input_library tv s name = .ok s1) :
    s1.calls.filter is_exec = s.calls.filter is_exec := by
  unfold call_add_input_library at h
  split at h
  · simp at h
  · simp only [Outcome.ok.injEq] at h
    subst h
    simp [record, List.filter_append, List.filter, is_exec]

theorem add_output_files_loop_calls (tv : Host) :
    ∀ (fuel : Nat) (f : List Char) (s s1 : plugin_state),
      add_output_files_loop tv fuel f s = .ok s1 →
      s1.calls.filter is_exec = s.calls.filter is_exec := by
  intro fuel
  induction fuel with
  | zero => intro f s s1 h; simp [add_output_files_loop] at h
  | succ fuel ih =>
    intro f s s1 h
    unfold add_output_files_loop at h
    split at h
    · simp only [Outcome.ok.injEq] at h
      subst h
      rfl
    · simp only [Outcome.bind_def, Outcome.pure_def] at h
      split at h
      · simp at h
      · obtain ⟨_, _, h⟩ := Outcome.bind_eq_ok.mp h
        obtain ⟨_, _, h⟩ := Outcome.bind_eq_ok.mp h
        split at h
        · simp only [Outcome.ok_bind] at h
          obtain ⟨s2, hs2, h⟩ := Outcome.bind_eq_ok.mp h
          rw [ih _ s2 s1 h, call_add_input_file_calls hs2]
        · simp only [Outcome.ok_bind] at h
          obtain ⟨s2, hs2, h⟩ := Outcome.bind_eq_ok.mp h
          rw [ih _ s2 s1 h, call_add_input_file_calls hs2]
        · simp at h

theorem pass_through_loop_calls (tv : Host) :
    ∀ (items : List String) (s s1 : plugin_state), pass_through_loop tv items s = .ok s1 →
      s1.calls.filter is_exec = s.calls.filter is_exec := by
  intro items
  induction items with
  | nil =>
    intro s s1 h
    simp only [pass_through_loop, Outcome.ok.injEq] at h
    subst h
    rfl
  | cons item items ih =>
    intro s s1 h
    simp only [pass_through_loop, Outcome.bind_def] at h
    split at h
    · obtain ⟨s2, hs2, h⟩ := Outcome.bind_eq_ok.mp h
      rw [ih s2 s1 h, call_add_input_library_calls hs2]
    · obtain ⟨s2, hs2, h⟩ := Outcome.bind_eq_ok.mp h
      rw [ih s2 s1 h, call_add_input_file_calls hs2]

theorem forward_pass_through_calls {tv : Host} {s s1 : plugin_state}
    (h : forward_pass_through tv s = .ok s1) :
    s1.calls.filter is_exec = s.calls.filter is_exec := by
  unfold forward_pass_through at h
  split at h
  · simp only [Outcome.ok.injEq] at h
    subst h
    rfl
  · simp only [Outcome.bind_def, Outcome.pure_def] at h
    obtain ⟨s2, hs2, h⟩ := Outcome.bind_eq_ok.mp h
    simp only [Outcome.ok.injEq] at h
    subst h
    exact pass_through_loop_calls tv _ s s2 hs2

theorem arguments_name (d : String) :
    String.mk (("@" ++ d ++ "/arguments").data.drop 1) = d ++ "/arguments" := by
  rw [String.append_assoc]
  exact at_args_name _

theorem unlink_calls (s : plugin_state) (path : String) : (unlink s path).1.calls = s.calls := by
  unfold unlink
  split <;> rfl

theorem write_file_calls (s : plugin_state) (path : String) (data : FileData) :
    (write_file s path data).1.calls = s.calls := by
  unfold write_file
  split <;> rfl

/-- The calls by which `exec_lto_wrapper` runs the wrapper: the entries after the first
are written to the arguments file, and the first entry is started with itself and the
name of that file behind `@` as arguments. -/
theorem exec_lto_wrapper_calls {tv : Host} {pex : pex_obj} {s s1 : plugin_state} (x : String)
    (rest : List String)
    (h : exec_lto_wrapper tv pex (some x :: (rest.map some ++ [none])) s = .ok s1) :
    s1.calls.filter is_exec = s.calls.filter is_exec ++
      [Call.writeargv (fmt_s s.temp_obj_dir_name ++ "/arguments") rest,
       Call.pex_run (some x)
         [some x, some ("@" ++ fmt_s s.temp_obj_dir_name ++ "/arguments")]] := by
  unfold exec_lto_wrapper at h
  simp only [Outcome.bind_def, Outcome.pure_def, check_true, Outcome.ok_bind, arguments_name,
    List.drop_succ_cons, List.drop_zero, c_argv_terminated] at h
  obtain ⟨_, _, h⟩ := Outcome.bind_eq_ok.mp h
  split at h
  · simp at h
  · simp only [index, List.getElem?_cons_zero, Outcome.ok_bind] at h
    obtain ⟨_, _, h⟩ := Outcome.bind_eq_ok.mp h
    split at h
    · simp at h
    · obtain ⟨_, _, h⟩ := Outcome.bind_eq_ok.mp h
      obtain ⟨_, _, h⟩ := Outcome.bind_eq_ok.mp h
      obtain ⟨_, _, h⟩ := Outcome.bind_eq_ok.mp h
      split at h
      · simp at h
      · obtain ⟨s2, hs2, h⟩ := Outcome.bind_eq_ok.mp h
        obtain ⟨_, _, h⟩ := Outcome.bind_eq_ok.mp h
        obtain ⟨_, _, h⟩ := Outcome.bind_eq_ok.mp h
        obtain ⟨_, _, h⟩ := Outcome.bind_eq_ok.mp h
        simp only [Outcome.ok.injEq] at h
        subst h
        rw [unlink_calls, add_output_files_loop_calls tv _ _ _ s2 hs2]
        have hw : ∀ p d, (write_file s p d).1.debug = s.debug := by
          intro p d
          unfold write_file
          split <;> rfl
        cases hd : s.debug <;>
          simp [record, write_file_calls, hw, hd, List.filter_append, List.filter, is_exec]

/-- C10, counterexample: a session loaded without any option to forward (k = 0), not in
bypass mode, with `a.o` claimed: `all_symbols_read_handler` stops at
`assert (lto_wrapper_argv)` and hands no vector to `exec_lto_wrapper`. -/
theorem C10_counterexample :
    session_no_wrapper.nop = false ∧
    session_no_wrapper.claimed_files.map (fun info => info.name) = ["a.o"] ∧
    session_no_wrapper.lto_wrapper_argv = none ∧
    all_symbols_read_handler example_host example_resolution_str good_pex session_no_wrapper =
      .assert_failed "lto_wrapper_argv" := by
  decide

/-- C10, amended: in a session not in bypass mode, with at least one claimed file and a
vector of forwarded options that is not `NULL` (at least one option was forwarded at
load time), the vector `all_symbols_read_handler` fills is the forwarded options in
their order, then the names of the claimed files in registry order, then the
terminator, `k + n + 1` entries in all, which is the size of the array; this is the
vector handed to `exec_lto_wrapper`, after `write_resolution` and `free_1`; and whenever
the handler ends well, the wrapper has been run exactly once: the entries after the
first were written to the arguments file and the first entry was started as the
executable, with itself and `@` followed by the name of that file as arguments. -/
theorem C10_argument_vector (tv : Host) (str : Nat → String) (pex : pex_obj) (s : plugin_state)
    (fwd : List String) (hnop : s.nop = false) (hn : s.claimed_files ≠ [])
    (hfwd : s.lto_wrapper_argv = some fwd) :
    (fill_lto_argv (s.claimed_files.length + count s.lto_wrapper_argv + 1) s =
        .ok ((backend_args fwd s).map some ++ [none]) ∧
      ((backend_args fwd s).map some ++ [none]).length =
        s.claimed_files.length + count s.lto_wrapper_argv + 1) ∧
    (all_symbols_read_handler tv str pex s =
      (write_resolution tv str s).bind fun s1 =>
        (free_1 s1).bind fun s2 =>
          (exec_lto_wrapper tv pex ((backend_args fwd s).map some ++ [none]) s2).bind fun s3 =>
            (forward_pass_through tv s3).bind fun s4 => .ok (s4, .LDPS_OK)) ∧
    (∀ s1 status, all_symbols_read_handler tv str pex s = .ok (s1, status) →
      s1.calls.filter is_exec = s.calls.filter is_exec ++
        [Call.writeargv (fmt_s s.temp_obj_dir_name ++ "/arguments") ((backend_args fwd s).drop 1),
         Call.pex_run (backend_args fwd s).head?
           [(backend_args fwd s).head?,
            some ("@" ++ fmt_s s.temp_obj_dir_name ++ "/arguments")]]) := by
  have hcount : count s.lto_wrapper_argv = fwd.length := by simp [count, hfwd]
  have hlen : s.claimed_files.length ≠ 0 := fun h => hn (List.length_eq_zero.mp h)
  have hN : s.claimed_files.length + count s.lto_wrapper_argv + 1 =
      (s.claimed_files.map fun info => info.name).length + fwd.length + 1 := by
    rw [hcount, List.length_map]
  have heq : all_symbols_read_handler tv str pex s =
      (write_resolution tv str s).bind fun s1 =>
        (free_1 s1).bind fun s2 =>
          (exec_lto_wrapper tv pex ((backend_args fwd s).map some ++ [none]) s2).bind fun s3 =>
            (forward_pass_through tv s3).bind fun s4 => .ok (s4, .LDPS_OK) := by
    simp only [all_symbols_read_handler, hlen, if_false, hnop, Bool.false_eq_true, c_assert, hfwd,
      Option.isSome_some, if_true, Outcome.bind_def, Outcome.ok_bind, Outcome.pure_def]
    cases h1 : write_resolution tv str s with
    | ok s1 =>
      simp only [Outcome.ok_bind]
      cases h2 : free_1 s1 with
      | ok s2 =>
        obtain ⟨a1, a2, _, _⟩ := write_resolution_keeps h1
        obtain ⟨b1, b2, _, _⟩ := free_1_keeps h2
        have hf := fill_lto_argv_eq s2 fwd (s.claimed_files.map fun info => info.name)
          (by rw [b1, a1, hfwd]) (by rw [b2, a2])
        have hc : count (some fwd) = fwd.length := rfl
        rw [List.length_map] at hf
        simp only [Outcome.ok_bind, hc, hf, backend_args]
      | fatal t => rfl
      | assert_failed t => rfl
      | undefined u => rfl
      | diverges => rfl
    | fatal t => rfl
    | assert_failed t => rfl
    | undefined u => rfl
    | diverges => rfl
  refine ⟨⟨?_, ?_⟩, heq, ?_⟩
  · rw [hN]
    exact fill_lto_argv_eq s fwd _ hfwd rfl
  · simp [backend_args, hcount]
    omega
  · intro s1 status h
    rw [heq] at h
    obtain ⟨t1, h1, h⟩ := Outcome.bind_eq_ok.mp h
    obtain ⟨t2, h2, h⟩ := Outcome.bind_eq_ok.mp h
    obtain ⟨t3, h3, h⟩ := Outcome.bind_eq_ok.mp h
    obtain ⟨t4, h4, h⟩ := Outcome.bind_eq_ok.mp h
    simp only [Outcome.ok.injEq, Prod.mk.injEq] at h
    obtain ⟨h5, _⟩ := h
    subst h5
    obtain ⟨_, _, a3, a4⟩ := write_resolution_keeps h1
    obtain ⟨_, _, b3, b4⟩ := free_1_keeps h2
    obtain ⟨x, rest, hargs⟩ : ∃ x rest, backend_args fwd s = x :: rest := by
      cases hb : backend_args fwd s with
      | nil =>
        exfalso
        simp only [backend_args, List.append_eq_nil, List.map_eq_nil_iff] at hb
        exact hn hb.2
      | cons x rest => exact ⟨x, rest, rfl⟩
    rw [hargs] at h3 ⊢
    have h3b : exec_lto_wrapper tv pex (some x :: (rest.map some ++ [none])) t2 = .ok t3 := by
      simpa using h3
    rw [forward_pass_through_calls h4, exec_lto_wrapper_calls x rest h3b, b4, a4, b3, a3]
    simp

theorem session_linked_ok :
    all_symbols_read_handler example_host example_resolution_str good_pex session_ab =
      .ok (session_linked, .LDPS_OK) := by
  decide

/-- C10, amended, on the end-to-end example with the path of the wrapper as the one
forwarded option: the vector is the wrapper, `a.o`, `b.o` and the terminator; `a.o` and
`b.o` go to the arguments file and the wrapper is started. -/
theorem C10_argument_vector_witness :
    backend_args ["/usr/bin/lto-wrapper"] session_ab = ["/usr/bin/lto-wrapper", "a.o", "b.o"] ∧
    fill_lto_argv (session_ab.claimed_files.length + count session_ab.lto_wrapper_argv + 1)
        session_ab =
      .ok ((backend_args ["/usr/bin/lto-wrapper"] session_ab).map some ++ [none]) ∧
    session_linked.calls.filter is_exec = session_ab.calls.filter is_exec ++
      [Call.writeargv (fmt_s session_ab.temp_obj_dir_name ++ "/arguments")
         ((backend_args ["/usr/bin/lto-wrapper"] session_ab).drop 1),
       Call.pex_run (backend_args ["/usr/bin/lto-wrapper"] session_ab).head?
         [(backend_args ["/usr/bin/lto-wrapper"] session_ab).head?,
          some ("@" ++ fmt_s session_ab.temp_obj_dir_name ++ "/arguments")]] :=
  have h := C10_argument_vector example_host example_resolution_str good_pex session_ab
    ["/usr/bin/lto-wrapper"] (by decide) (by decide) (by decide)
  ⟨by decide, h.1.1, h.2.2 session_linked .LDPS_OK session_linked_ok⟩

/-! ## Options -/

/-- The test `strncmp (o, k, strlen (k)) == 0`: `o` is `k` followed by something. -/
theorem starts_iff (k o : String) : k.data.isPrefixOf o.data = true ↔ ∃ p, o = k ++ p := by
  rw [List.isPrefixOf_iff_prefix]
  constructor
  · rintro ⟨t, ht⟩
    exact ⟨String.mk t, String.ext (by simp [String.data_append, ht])⟩
  · rintro ⟨p, rfl⟩
    exact ⟨p.data, by simp [String.data_append]⟩

theorem drop_key (k p : String) : String.mk ((k ++ p).data.drop k.length) = p := by
  apply String.ext
  show ((k ++ p).data.drop k.length) = p.data
  rw [String.data_append]
  exact List.drop_left' rfl

theorem unrecognized_iff (o : String) :
    unrecognized o = true ↔
      o ≠ "-debug" ∧ o ≠ "-nop" ∧ (∀ p, o ≠ "-resolution=" ++ p) ∧
        ∀ x, o ≠ "-pass-through=" ++ x := by
  have h1 := starts_iff "-resolution=" o
  have h2 := starts_iff "-pass-through=" o
  unfold unrecognized
  constructor
  · intro h
    simp only [Bool.not_eq_true', Bool.or_eq_false_iff, decide_eq_false_iff_not] at h
    obtain ⟨⟨⟨a, b⟩, c⟩, d⟩ := h
    refine ⟨a, b, ?_, ?_⟩
    · intro p hp
      rw [h1.mpr ⟨p, hp⟩] at c
      exact absurd c (by simp)
    · intro x hx
      rw [h2.mpr ⟨x, hx⟩] at d
      exact absurd d (by simp)
  · rintro ⟨a, b, c, d⟩
    have c1 : "-resolution=".data.isPrefixOf o.data = false := by
      cases hc : "-resolution=".data.isPrefixOf o.data with
      | false => rfl
      | true =>
        obtain ⟨p, hp⟩ := h1.mp hc
        exact absurd hp (c p)
    have d1 : "-pass-through=".data.isPrefixOf o.data = false := by
      cases hd : "-pass-through=".data.isPrefixOf o.data with
      | false => rfl
      | true =>
        obtain ⟨x, hx⟩ := h2.mp hd
        exact absurd hx (d x)
    simp [a, b, c1, d1]

/-- A string that starts with `k` does not start with `j` when the first two
characters of `j` and `k` differ. -/
theorem starts_other (j k p : String) (hj : 2 ≤ j.data.length) (hk : 2 ≤ k.data.length)
    (hne : j.data.take 2 ≠ k.data.take 2) : j.data.isPrefixOf (k ++ p).data = false := by
  cases h : j.data.isPrefixOf (k ++ p).data with
  | false => rfl
  | true =>
    exfalso
    rw [List.isPrefixOf_iff_prefix, List.prefix_iff_eq_take] at h
    apply hne
    rw [h, List.take_take, String.data_append, List.take_append_of_le_length (by omega)]
    rw [Nat.min_eq_left hj]

/-- What `process_option` does with an unrecognized option. -/
theorem process_option_unrecognized (o : String) (s : plugin_state) (h : unrecognized o = true) :
    process_option o s =
      { s with lto_wrapper_argv := some (s.lto_wrapper_argv.getD [] ++ [o]) } := by
  unfold unrecognized at h
  simp only [Bool.not_eq_true', Bool.or_eq_false_iff, decide_eq_false_iff_not] at h
  obtain ⟨⟨⟨a, b⟩, c⟩, d⟩ := h
  simp [process_option, a, b, c, d]

/-- A recognized option leaves the forwarded options alone. -/
theorem process_option_recognized (o : String) (s : plugin_state) (h : unrecognized o = false) :
    (process_option o s).lto_wrapper_argv = s.lto_wrapper_argv := by
  unfold process_option
  split
  · rfl
  · split
    · rfl
    · split
      · rfl
      · split
        · rfl
        · rename_i a b c d
          exfalso
          have : unrecognized o = true := by
            simp [unrecognized, a, b, c, d]
          rw [h] at this
          exact absurd this (by simp)

/-- The forwarded options after a sequence of options: the unrecognized ones, in order,
behind those already there. -/
theorem foldl_process_option (opts : List String) :
    ∀ s : plugin_state,
      (opts.foldl (fun s o => process_option o s) s).lto_wrapper_argv.getD [] =
        s.lto_wrapper_argv.getD [] ++ opts.filter unrecognized := by
  induction opts with
  | nil => intro s; simp
  | cons o opts ih =>
    intro s
    rw [List.foldl_cons, ih]
    cases h : unrecognized o with
    | true =>
      rw [process_option_unrecognized o s h]
      simp [List.filter, h]
    | false =>
      rw [process_option_recognized o s h]
      simp [List.filter, h]

/-- C11: `process_option` changes one component of the session and nothing else:
`-debug` sets the debug flag; `-nop` sets the bypass flag; `-resolution=` followed by
`p` sets the resolution file to `p`; `-pass-through=` followed by `x` appends `x` to the
pass-through items; every other string, also one that only starts with `-debug` or
`-nop`, is appended as it is to the forwarded options; so after loading, the forwarded
options are the unrecognized ones among the options supplied, in their order. -/
theorem C11_process_option (s : plugin_state) (option : String) :
    (option = "-debug" → process_option option s = { s with debug := true }) ∧
    (option = "-nop" → process_option option s = { s with nop := true }) ∧
    (∀ p, option = "-resolution=" ++ p →
      process_option option s = { s with resolution_file := some p }) ∧
    (∀ x, option = "-pass-through=" ++ x →
      process_option option s =
        { s with pass_through_items := some (s.pass_through_items.getD [] ++ [x]) }) ∧
    (option ≠ "-debug" → option ≠ "-nop" → (∀ p, option ≠ "-resolution=" ++ p) →
      (∀ x, option ≠ "-pass-through=" ++ x) →
      process_option option s =
        { s with lto_wrapper_argv := some (s.lto_wrapper_argv.getD [] ++ [option]) }) ∧
    (∀ (opts : List String) (dir : String),
      (loaded opts dir).lto_wrapper_argv.getD [] = opts.filter unrecognized ∧
      ∀ o, unrecognized o = true ↔
        o ≠ "-debug" ∧ o ≠ "-nop" ∧ (∀ p, o ≠ "-resolution=" ++ p) ∧
          ∀ x, o ≠ "-pass-through=" ++ x) := by
  refine ⟨?_, ?_, ?_, ?_, ?_, ?_⟩
  · rintro rfl
    simp [process_option]
  · rintro rfl
    simp [process_option]
  · rintro p rfl
    have h1 : "-resolution=" ++ p ≠ "-debug" := by
      intro h
      have := (starts_iff "-resolution=" "-debug").mpr ⟨p, h.symm⟩
      exact absurd this (by decide)
    have h2 : "-resolution=" ++ p ≠ "-nop" := by
      intro h
      have := (starts_iff "-resolution=" "-nop").mpr ⟨p, h.symm⟩
      exact absurd this (by decide)
    have h3 := (starts_iff "-resolution=" ("-resolution=" ++ p)).mpr ⟨p, rfl⟩
    simp only [process_option, h1, h2, h3, if_false, if_true, drop_key]
  · rintro x rfl
    have h1 : "-pass-through=" ++ x ≠ "-debug" := by
      intro h
      have := (starts_iff "-pass-through=" "-debug").mpr ⟨x, h.symm⟩
      exact absurd this (by decide)
    have h2 : "-pass-through=" ++ x ≠ "-nop" := by
      intro h
      have := (starts_iff "-pass-through=" "-nop").mpr ⟨x, h.symm⟩
      exact absurd this (by decide)
    have h3 : "-resolution=".data.isPrefixOf ("-pass-through=" ++ x).data = false :=
      starts_other "-resolution=" "-pass-through=" x (by decide) (by decide) (by decide)
    have h4 := (starts_iff "-pass-through=" ("-pass-through=" ++ x)).mpr ⟨x, rfl⟩
    simp only [process_option, h1, h2, h3, h4, if_false, if_true, drop_key,
      Bool.false_eq_true]
  · intro a b c d
    exact process_option_unrecognized option s ((unrecognized_iff option).mpr ⟨a, b, c, d⟩)
  · intro opts dir
    refine ⟨?_, unrecognized_iff⟩
    simp only [loaded]
    rw [foldl_process_option]
    simp

/-- C11 on the session of the end-to-end example and on a list of options. -/
theorem C11_process_option_witness :
    process_option "-debug" session_0 = { session_0 with debug := true } ∧
    process_option "-nop" session_0 = { session_0 with nop := true } ∧
    process_option ("-resolution=" ++ "out.res") session_0 =
      { session_0 with resolution_file := some "out.res" } ∧
    process_option ("-pass-through=" ++ "-lc") session_0 =
      { session_0 with
        pass_through_items := some (session_0.pass_through_items.getD [] ++ ["-lc"]) } ∧
    process_option "-debugx" session_0 =
      { session_0 with
        lto_wrapper_argv := some (session_0.lto_wrapper_argv.getD [] ++ ["-debugx"]) } ∧
    (loaded ["-debug", "/usr/bin/lto-wrapper", "-nop2", "-resolution=r", "-O2"]
        "tmp_objects").lto_wrapper_argv.getD [] =
      ["-debug", "/usr/bin/lto-wrapper", "-nop2", "-resolution=r", "-O2"].filter unrecognized ∧
    ["-debug", "/usr/bin/lto-wrapper", "-nop2", "-resolution=r", "-O2"].filter unrecognized =
      ["/usr/bin/lto-wrapper", "-nop2", "-O2"] :=
  ⟨(C11_process_option session_0 "-debug").1 rfl,
   (C11_process_option session_0 "-nop").2.1 rfl,
   (C11_process_option session_0 ("-resolution=" ++ "out.res")).2.2.1 "out.res" rfl,
   (C11_process_option session_0 ("-pass-through=" ++ "-lc")).2.2.2.1 "-lc" rfl,
   (C11_process_option session_0 "-debugx").2.2.2.2.1 (by decide) (by decide)
     (fun p h => absurd ((starts_iff "-resolution=" "-debugx").mpr ⟨p, h⟩) (by decide))
     (fun x h => absurd ((starts_iff "-pass-through=" "-debugx").mpr ⟨x, h⟩) (by decide)),
   ((C11_process_option session_0 "-debug").2.2.2.2.2 _ "tmp_objects").1,
   by decide⟩

/-! ## Declining a file -/

/-- The loop that copies an archive member ends when the archive holds the bytes of the
member, and it has copied them. -/
theorem copy_member_ok (tv : Host) :
    ∀ (fuel size : Nat) (input acc : List Byte), size ≤ fuel → size ≤ input.length →
      copy_member tv true fuel size input acc = .ok (acc ++ input.take size) := by
  intro fuel
  induction fuel with
  | zero =>
    intro size input acc h1 _
    have : size = 0 := by omega
    subst this
    simp [copy_member]
  | succ fuel ih =>
    intro size input acc h1 h2
    cases size with
    | zero => simp [copy_member]
    | succ sz =>
      have hs : 1 ≤ min 1000 (sz + 1) := by omega
      have hlen : (input.take (min 1000 (sz + 1))).length = min 1000 (sz + 1) := by
        rw [List.length_take]
        omega
      have hne : ¬ (input.take (min 1000 (sz + 1))).length = 0 := by omega
      simp only [copy_member, check_true, Outcome.bind_def, Outcome.ok_bind, hne, if_false,
        if_true]
      rw [hlen, ih _ _ _ (by omega) (by rw [List.length_drop]; omega), List.append_assoc,
        ← List.take_add]
      congr 3
      omega

theorem filter_added (files : List (String × FileData)) (path : String) (data : FileData) :
    (files.filter (fun f => f.1 ≠ path) ++ [(path, data)]).filter (fun f => f.1 ≠ path) =
      files.filter (fun f => f.1 ≠ path) := by
  simp [List.filter_append, List.filter_filter]

theorem filter_absent (files : List (String × FileData)) (path : String)
    (h : (files.any fun f => f.1 = path) = false) :
    files.filter (fun f => f.1 ≠ path) = files := by
  rw [List.filter_eq_self]
  intro f hf
  simp only [List.any_eq_false, decide_eq_true_eq] at h
  simpa using h f hf

/-- What `claim_file_handler` does with an archive member in which libelf finds no
symbol-table section, when the copy can be created and the archive holds the member. -/
theorem claim_file_handler_member (tv : Host) (e : Endian) (file : ld_plugin_input_file)
    (s : plugin_state) (helf : file.elf = some none) (hoff : file.offset ≠ 0)
    (hopen : objname s ∉ s.unwritable) (hsize : file.offset + file.filesize ≤ file.fd.length) :
    claim_file_handler tv e file s =
      .ok ({ s with objnum := s.objnum + 1
                    files := s.files.filter fun f => f.1 ≠ objname s }, false, .LDPS_OK) := by
  have hcopy := copy_member_ok tv file.filesize file.filesize (file.fd.drop file.offset) []
    (Nat.le_refl _) (by rw [List.length_drop]; omega)
  have hopen2 : (fmt_s s.temp_obj_dir_name ++ "/obj" ++ fmt_d s.objnum ++ ".o") ∉
      s.unwritable := hopen
  unfold claim_file_handler open_object
  simp only [hoff, ne_eq, not_false_eq_true, if_true, check_true, Outcome.bind_def,
    Outcome.ok_bind, hopen2, decide_True, hcopy, Outcome.pure_def, helf, claim_error]
  simp [write_file, hopen2, unlink, file_exists, List.filter_append, List.filter_filter,
    objname]

/-- C12: when libelf opens the object and finds no section `.gnu.lto_.symtab` in it,
`claim_file_handler` sets `claimed` to false and returns `LDPS_OK`. For a file on its
own nothing changes at all. For an archive member (the copy can be created in the
temporary directory and the archive holds the bytes of the member) the copy is gone
from the disk when the handler returns, the registry and the directories are as
before, and so are the files on disk, no file having been there under the fresh name
of the copy; only the counter of copies has advanced. -/
theorem C12_decline (tv : Host) (e : Endian) (file : ld_plugin_input_file) (s : plugin_state)
    (helf : file.elf = some none) :
    (file.offset = 0 → claim_file_handler tv e file s = .ok (s, false, .LDPS_OK)) ∧
    (file.offset ≠ 0 → objname s ∉ s.unwritable →
      file.offset + file.filesize ≤ file.fd.length →
      ∃ s1, claim_file_handler tv e file s = .ok (s1, false, .LDPS_OK) ∧
        file_exists s1 (objname s) = false ∧ s1.claimed_files = s.claimed_files ∧
        s1.dirs = s.dirs ∧ (file_exists s (objname s) = false → s1.files = s.files) ∧
        s1 = { s with objnum := s.objnum + 1
                      files := s.files.filter fun f => f.1 ≠ objname s }) := by
  constructor
  · intro hoff
    unfold claim_file_handler open_object
    simp [hoff, helf, claim_error]
  · intro hoff hopen hsize
    refine ⟨_, claim_file_handler_member tv e file s helf hoff hopen hsize, ?_, rfl, rfl, ?_, rfl⟩
    · simp [file_exists]
    · intro habsent
      exact filter_absent s.files (objname s) habsent

/-- C12 on a file on its own and on an archive member, both without symbol table, offered
to the freshly loaded session. -/
theorem C12_decline_witness :
    claim_file_handler example_host .little object_plain session_0 =
      .ok (session_0, false, .LDPS_OK) ∧
    objname session_0 = "tmp_objects/obj0.o" ∧
    ∃ s1, claim_file_handler example_host .little member_plain session_0 =
        .ok (s1, false, .LDPS_OK) ∧
      file_exists s1 (objname session_0) = false ∧
      s1.claimed_files = session_0.claimed_files ∧ s1.dirs = session_0.dirs ∧
      (file_exists session_0 (objname session_0) = false → s1.files = session_0.files) ∧
      s1 = { session_0 with
             objnum := session_0.objnum + 1
             files := session_0.files.filter fun f => f.1 ≠ objname session_0 } :=
  ⟨(C12_decline example_host .little object_plain session_0 rfl).1 rfl, by decide,
   (C12_decline example_host .little member_plain session_0 rfl).2 (by decide) (by decide)
     (by decide)⟩


/-! ## The place of the resolution writer -/

/-- What `write_resolution` leaves on disk when a destination is configured and it
returns: the file at the destination, written last, whose first line is the number of
claimed files; the other files are as before. -/
theorem write_resolution_file {tv : Host} {str : Nat → String} {s s1 : plugin_state}
    {path : String} (hres : s.resolution_file = some path)
    (h : write_resolution tv str s = .ok s1) :
    ∃ body, s1.files = (s.files.filter fun f => f.1 ≠ path) ++
      [(path, .text (fmt_d s.claimed_files.length ++ "\n" ++ body))] := by
  unfold write_resolution at h
  simp only [hres, Outcome.bind_def, Outcome.pure_def] at h
  obtain ⟨_, _, h⟩ := Outcome.bind_eq_ok.mp h
  split at h
  · simp at h
  · rename_i hf
    obtain ⟨r, _, h⟩ := Outcome.bind_eq_ok.mp h
    simp only [Outcome.ok.injEq] at h
    subst h
    have hw : path ∉ s.unwritable := by simpa using hf
    exact ⟨r.2.2, by simp [write_file, hw]⟩

/-- C13, counterexample: the end-to-end example in bypass mode has the destination `res`
configured and two claimed files, and `all_symbols_read_handler` returns `LDPS_OK`
after the two calls to `add_input_file`, with no file `res` on disk; and the freshly
loaded session, with the same destination and no claimed file, is returned as it is,
with no file `res` on disk either. -/
theorem C13_counterexample :
    session_nop.resolution_file = some "res" ∧ session_nop.nop = true ∧
    session_nop.claimed_files.length = 2 ∧
    all_symbols_read_handler example_host example_resolution_str good_pex session_nop =
      .ok ({ session_nop with
             calls := session_nop.calls ++
               [Call.add_input_file "a.o", Call.add_input_file "b.o"] }, .LDPS_OK) ∧
    file_exists session_nop "res" = false ∧
    session_0.resolution_file = some "res" ∧ session_0.claimed_files.length = 0 ∧
    all_symbols_read_handler example_host example_resolution_str good_pex session_0 =
      .ok (session_0, .LDPS_OK) ∧
    file_exists session_0 "res" = false := by
  refine ⟨by decide, rfl, by decide, ?_, by decide, by decide, by decide, ?_, by decide⟩
  · have hlen : ¬ session_nop.claimed_files.length = 0 := by decide
    have hnop : session_nop.nop = true := rfl
    have hnames : session_nop.claimed_files.map (fun info => Call.add_input_file info.name) =
        [Call.add_input_file "a.o", Call.add_input_file "b.o"] := by decide
    simp only [all_symbols_read_handler, hlen, if_false, hnop, if_true, use_original_files,
      use_original_files_loop_ok example_host rfl, Outcome.bind_def, Outcome.ok_bind,
      Outcome.pure_def, hnames]
  · have hlen : session_0.claimed_files.length = 0 := by decide
    simp only [all_symbols_read_handler, hlen, if_true]

/-- C13, amended: `all_symbols_read_handler` reaches `write_resolution` only after the
checks of the registry and of bypass mode. With no claimed file it returns the session
as it is; in bypass mode (the linker supplying `add_input_file`) it returns with the
files on disk as they were; in both cases no resolution file is written, whether a
destination is configured or not. With a claimed file, bypass mode off and the
forwarded options present, `write_resolution` is the first step, before `free_1`, the
argument vector, the run of the wrapper and the pass-through items. `write_resolution`
itself returns the session as it is when no destination is configured, and with the
destination `path` it leaves there a file whose first line is the number of claimed
files. -/
theorem C13_writer_after_checks (tv : Host) (str : Nat → String) (pex : pex_obj)
    (s : plugin_state) :
    (s.claimed_files = [] → all_symbols_read_handler tv str pex s = .ok (s, .LDPS_OK)) ∧
    (s.claimed_files ≠ [] → s.nop = true → tv.add_input_file.isSome →
      ∃ s1, all_symbols_read_handler tv str pex s = .ok (s1, .LDPS_OK) ∧
        s1.files = s.files) ∧
    (s.claimed_files ≠ [] → s.nop = false → s.lto_wrapper_argv.isSome →
      all_symbols_read_handler tv str pex s =
        (write_resolution tv str s).bind fun s1 =>
          (free_1 s1).bind fun s2 =>
            (fill_lto_argv (s.claimed_files.length + count s.lto_wrapper_argv + 1) s2).bind
              fun lto_argv =>
                (exec_lto_wrapper tv pex lto_argv s2).bind fun s3 =>
                  (forward_pass_through tv s3).bind fun s4 => .ok (s4, .LDPS_OK)) ∧
    (s.resolution_file = none → write_resolution tv str s = .ok s) ∧
    (∀ (path : String) (s1 : plugin_state), s.resolution_file = some path →
      write_resolution tv str s = .ok s1 →
      ∃ body, s1.files = (s.files.filter fun f => f.1 ≠ path) ++
        [(path, .text (fmt_d s.claimed_files.length ++ "\n" ++ body))]) := by
  refine ⟨?_, ?_, ?_, ?_, ?_⟩
  · intro hnil
    have hlen : s.claimed_files.length = 0 := by simp [hnil]
    simp only [all_symbols_read_handler, hlen, if_true]
  · intro hne hnop hcap
    have hlen : ¬ s.claimed_files.length = 0 := fun h => hne (List.length_eq_zero.mp h)
    refine ⟨{ s with calls := s.calls ++
        s.claimed_files.map fun info => Call.add_input_file info.name }, ?_, rfl⟩
    simp only [all_symbols_read_handler, hlen, if_false, hnop, if_true, use_original_files,
      use_original_files_loop_ok tv hcap, Outcome.bind_def, Outcome.ok_bind, Outcome.pure_def]
  · intro hne hnop hfwd
    have hlen : ¬ s.claimed_files.length = 0 := fun h => hne (List.length_eq_zero.mp h)
    simp only [all_symbols_read_handler, hlen, if_false, hnop, Bool.false_eq_true, c_assert,
      hfwd, if_true, Outcome.bind_def, Outcome.ok_bind, Outcome.pure_def]
  · intro hres
    simp only [write_resolution, hres]
  · intro path s1 hres h
    exact write_resolution_file hres h

/-- C13, amended, on the end-to-end example: the freshly loaded session, the session in
bypass mode, the session with `a.o` and `b.o` claimed, and that session without
destination. -/
theorem C13_writer_after_checks_witness :
    all_symbols_read_handler example_host example_resolution_str good_pex session_0 =
      .ok (session_0, .LDPS_OK) ∧
    (∃ s1, all_symbols_read_handler example_host example_resolution_str good_pex session_nop =
        .ok (s1, .LDPS_OK) ∧ s1.files = session_nop.files) ∧
    (all_symbols_read_handler example_host example_resolution_str good_pex session_ab =
      (write_resolution example_host example_resolution_str session_ab).bind fun s1 =>
        (free_1 s1).bind fun s2 =>
          (fill_lto_argv
              (session_ab.claimed_files.length + count session_ab.lto_wrapper_argv + 1) s2).bind
            fun lto_argv =>
              (exec_lto_wrapper example_host good_pex lto_argv s2).bind fun s3 =>
                (forward_pass_through example_host s3).bind fun s4 => .ok (s4, .LDPS_OK)) ∧
    write_resolution example_host example_resolution_str session_no_resolution =
      .ok session_no_resolution ∧
    ∃ body, session_written.files = (session_ab.files.filter fun f => f.1 ≠ "res") ++
      [("res", .text (fmt_d session_ab.claimed_files.length ++ "\n" ++ body))] :=
  ⟨(C13_writer_after_checks example_host example_resolution_str good_pex session_0).1
      (by decide),
   (C13_writer_after_checks example_host example_resolution_str good_pex session_nop).2.1
      (by decide) rfl rfl,
   (C13_writer_after_checks example_host example_resolution_str good_pex session_ab).2.2.1
      (by decide) (by decide) (by decide),
   (C13_writer_after_checks example_host example_resolution_str good_pex
      session_no_resolution).2.2.2.1 rfl,
   (C13_writer_after_checks example_host example_resolution_str good_pex session_ab).2.2.2.2
      "res" session_written (by decide) session_ab_written⟩

end LtoPlugin
